import Mathlib

/-!
Verification of the claudesync-vscode file-synchronization engine.

The TypeScript sources are shallowly embedded below:
* `src/utils.ts` — `str2ab`, `ab2hex`, `computeSHA256Hash` (the platform
  `crypto.subtle.digest("SHA-256", ·)` is modelled by a pure SHA-256 over byte lists);
* the custom `GitignoreManager` revision — `convertGlobToRegex`, `normalizePath`,
  `isMatch`, the `.gitignore` pattern parsing of `loadGitignore`, `shouldIgnore`;
* `src/syncManager.ts` — `isBinaryContent`, `prepareFiles`, and the body of
  `syncFiles` (the per-file upload loop, the optional remote-cleanup loop, and the
  `handleError` wrapper), as an executable pass over an explicit remote-store state
  with fault and cancellation injection;
* the retry loop of `syncFiles` in `src/extension.ts` (the retry/cooldown supervisor).

JavaScript strings are modelled as lists of UTF-16 code units (`JSStr := List Nat`).
-/

/-- A JavaScript string: its sequence of UTF-16 code units. -/
abbrev JSStr := List Nat

/-- Embed a Lean string literal as a JavaScript string (code-unit list).
For strings without astral-plane characters, `Char.toNat` is the UTF-16 code unit. -/
def js (s : String) : JSStr := s.data.map Char.toNat

/-! ## SHA-256 (model of `crypto.subtle.digest("SHA-256", ·)`) -/

/-- Truncate to a 32-bit word. -/
def w32 (x : Nat) : Nat := x % 4294967296

/-- Rotate a 32-bit word right by `n`. -/
def rotr32 (n x : Nat) : Nat := w32 ((x >>> n) ||| (x <<< (32 - n)))

def bigSig0 (x : Nat) : Nat := rotr32 2 x ^^^ rotr32 13 x ^^^ rotr32 22 x

def bigSig1 (x : Nat) : Nat := rotr32 6 x ^^^ rotr32 11 x ^^^ rotr32 25 x

def smallSig0 (x : Nat) : Nat := rotr32 7 x ^^^ rotr32 18 x ^^^ (x >>> 3)

def smallSig1 (x : Nat) : Nat := rotr32 17 x ^^^ rotr32 19 x ^^^ (x >>> 10)

def chFn (x y z : Nat) : Nat := (x &&& y) ^^^ ((4294967295 - w32 x) &&& z)

def majFn (x y z : Nat) : Nat := (x &&& y) ^^^ (x &&& z) ^^^ (y &&& z)

/-- The 64 SHA-256 round constants (FIPS 180-4), in decimal. -/
def K256 : List Nat :=
  [1116352408, 1899447441, 3049323471, 3921009573, 961987163,
   1508970993, 2453635748, 2870763221, 3624381080, 310598401,
   607225278, 1426881987, 1925078388, 2162078206, 2614888103,
   3248222580, 3835390401, 4022224774, 264347078, 604807628,
   770255983, 1249150122, 1555081692, 1996064986, 2554220882,
   2821834349, 2952996808, 3210313671, 3336571891, 3584528711,
   113926993, 338241895, 666307205, 773529912, 1294757372,
   1396182291, 1695183700, 1986661051, 2177026350, 2456956037,
   2730485921, 2820302411, 3259730800, 3345764771, 3516065817,
   3600352804, 4094571909, 275423344, 430227734, 506948616,
   659060556, 883997877, 958139571, 1322822218, 1537002063,
   1747873779, 1955562222, 2024104815, 2227730452, 2361852424,
   2428436474, 2756734187, 3204031479, 3329325298]

/-- Working state of the SHA-256 compression function. -/
structure Digest8 where
  a : Nat
  b : Nat
  c : Nat
  d : Nat
  e : Nat
  f : Nat
  g : Nat
  h : Nat
deriving Repr, DecidableEq

/-- SHA-256 initial hash value (FIPS 180-4), in decimal. -/
def sha256Init : Digest8 :=
  ⟨1779033703, 3144134277, 1013904242, 2773480762,
   1359893119, 2600822924, 528734635, 1541459225⟩

/-- One SHA-256 round. -/
def compressStep (st : Digest8) (k w : Nat) : Digest8 :=
  let t1 := w32 (st.h + bigSig1 st.e + chFn st.e st.f st.g + k + w)
  let t2 := w32 (bigSig0 st.a + majFn st.a st.b st.c)
  ⟨w32 (t1 + t2), st.a, st.b, st.c, w32 (st.d + t1), st.e, st.f, st.g⟩

/-- Big-endian 4-byte grouping of a byte list into 32-bit words. -/
def bytesToWords : List Nat → List Nat
  | b1 :: b2 :: b3 :: b4 :: rest =>
      (b1 * 16777216 + b2 * 65536 + b3 * 256 + b4) :: bytesToWords rest
  | _ => []

/-- Extend the 16-word message block by `n` further schedule words. -/
def extendW (w : List Nat) : Nat → List Nat
  | 0 => w
  | n + 1 =>
      let i := w.length
      let nw := w32 (w.getD (i - 16) 0 + smallSig0 (w.getD (i - 15) 0) +
                     w.getD (i - 7) 0 + smallSig1 (w.getD (i - 2) 0))
      extendW (w ++ [nw]) n

/-- Compress one 64-byte block into the running digest. -/
def compressBlock (h : Digest8) (block : List Nat) : Digest8 :=
  let ws := extendW (bytesToWords block) 48
  let st := (K256.zip ws).foldl (fun s kw => compressStep s kw.1 kw.2) h
  ⟨w32 (h.a + st.a), w32 (h.b + st.b), w32 (h.c + st.c), w32 (h.d + st.d),
   w32 (h.e + st.e), w32 (h.f + st.f), w32 (h.g + st.g), w32 (h.h + st.h)⟩

/-- Big-endian 8-byte encoding of a length in bits. -/
def lenBytes (n : Nat) : List Nat :=
  [(n >>> 56) % 256, (n >>> 48) % 256, (n >>> 40) % 256, (n >>> 32) % 256,
   (n >>> 24) % 256, (n >>> 16) % 256, (n >>> 8) % 256, n % 256]

/-- SHA-256 message padding. -/
def shaPad (msg : List Nat) : List Nat :=
  let L := msg.length
  msg ++ [128] ++ List.replicate ((64 - (L + 9) % 64) % 64) 0 ++ lenBytes (8 * L)

/-- Split a byte list into 64-byte chunks (fuel-based structural recursion; the fuel
is an upper bound on the number of chunks, so it is never exhausted). -/
def chunks64Go : Nat → List Nat → List (List Nat)
  | _, [] => []
  | 0, l => [l]
  | fuel + 1, x :: xs => (x :: xs).take 64 :: chunks64Go fuel ((x :: xs).drop 64)

/-- Split a byte list into 64-byte chunks. -/
def chunks64 (l : List Nat) : List (List Nat) := chunks64Go l.length l

/-- Big-endian byte serialization of the digest words. -/
def digestBytes (d : Digest8) : List Nat :=
  ([d.a, d.b, d.c, d.d, d.e, d.f, d.g, d.h].map
    (fun w => [(w >>> 24) % 256, (w >>> 16) % 256, (w >>> 8) % 256, w % 256])).flatten

/-- SHA-256 of a byte list, as 32 bytes. -/
def sha256 (msg : List Nat) : List Nat :=
  digestBytes ((chunks64 (shaPad msg)).foldl compressBlock sha256Init)

/-! ## `src/utils.ts` -/

/-- `str2ab` from `src/utils.ts`: writes `str.charCodeAt(i)` into a `Uint8Array`,
which truncates each UTF-16 code unit modulo 256. -/
def str2ab (s : JSStr) : List Nat := s.map (fun c => c % 256)

/-- One lowercase hexadecimal digit, as a UTF-16 code unit. -/
def hexDigit (n : Nat) : Nat := if n < 10 then 48 + n else 87 + n

/-- `b.toString(16).padStart(2, "0")` for a byte value. -/
def byteToHex (b : Nat) : JSStr := [hexDigit (b / 16), hexDigit (b % 16)]

/-- `ab2hex` from `src/utils.ts`: lowercase hex rendering of a byte buffer. -/
def ab2hex (bytes : List Nat) : JSStr := (bytes.map byteToHex).flatten

/-- `computeSHA256Hash` from `src/utils.ts`. -/
def computeSHA256Hash (content : JSStr) : JSStr := ab2hex (sha256 (str2ab content))

/-- UTF-8 encoding of one BMP code unit (spec-side notion of the "raw bytes" of text). -/
def utf8EncodeChar (c : Nat) : List Nat :=
  if c < 128 then [c]
  else if c < 2048 then [192 + c / 64, 128 + c % 64]
  else [224 + c / 4096, 128 + (c / 64) % 64, 128 + c % 64]

/-- The raw (UTF-8) bytes of a string, following the spec's words
"a cryptographic hash over the raw bytes of the content". -/
def rawBytesOfContent (s : JSStr) : List Nat := (s.map utf8EncodeChar).flatten

/-- Modelled from the spec: the Content Fingerprinter contract — "the SHA-256 digest of
the raw bytes of that content, rendered as a lowercase hex string". -/
def specContentFingerprint (s : JSStr) : JSStr := ab2hex (sha256 (rawBytesOfContent s))

/-- `s.includes(sub)` for JavaScript strings. -/
def jsIncludes (s sub : JSStr) : Bool :=
  (List.range (s.length + 1)).any (fun i => sub.isPrefixOf (s.drop i))

/-! ## The custom `GitignoreManager` (glob matching and ignore rules)

`convertGlobToRegex` builds a regex by escaping specials, then replacing `**` with
`.*`, then `*` with `[^/]*`, then `?` with `[^/]`.  Because the replacements are
sequential, the `*` introduced by the `**` step is itself rewritten by the `*` step,
so `**` really compiles to `.[^/]*` (one arbitrary non-line-terminator character
followed by non-slash characters).  The token list below is that final regex. -/

inductive GlobTok where
  /-- a literal character (escaped specials and everything else) -/
  | lit (c : Nat)
  /-- regex `.` — any character except a line terminator -/
  | anyChar
  /-- regex `[^/]*` -/
  | star
  /-- regex `[^/]` -/
  | one
deriving Repr, DecidableEq

/-- `convertGlobToRegex`, as the token list of the produced regular expression. -/
def compileGlob : JSStr → List GlobTok
  | [] => []
  | 42 :: 42 :: rest => .anyChar :: .star :: compileGlob rest
  | 42 :: rest => .star :: compileGlob rest
  | 63 :: rest => .one :: compileGlob rest
  | c :: rest => .lit c :: compileGlob rest

/-- JavaScript line terminators (which regex `.` does not match). -/
def isLineTerm (c : Nat) : Bool := c == 10 || c == 13 || c == 8232 || c == 8233

/-- Anchored matching of a compiled glob regex against a whole string, with
backtracking.  Fuel-based so that it reduces in the kernel; `tokLen + strLen + 1`
fuel always suffices since every recursive call shrinks `ts.length + s.length`. -/
def tokMatch : Nat → List GlobTok → JSStr → Bool
  | 0, _, _ => false
  | _ + 1, [], s => s.isEmpty
  | fuel + 1, .lit c :: ts, s =>
      match s with
      | [] => false
      | x :: xs => c == x && tokMatch fuel ts xs
  | fuel + 1, .anyChar :: ts, s =>
      match s with
      | [] => false
      | x :: xs => !isLineTerm x && tokMatch fuel ts xs
  | fuel + 1, .one :: ts, s =>
      match s with
      | [] => false
      | x :: xs => !(x == 47) && tokMatch fuel ts xs
  | fuel + 1, .star :: ts, s =>
      tokMatch fuel ts s ||
      (match s with
       | [] => false
       | x :: xs => !(x == 47) && tokMatch fuel (.star :: ts) xs)

/-- Whole-string match of a compiled glob (regex `^R$`). -/
def globTest (ts : List GlobTok) (s : JSStr) : Bool :=
  tokMatch (ts.length + s.length + 1) ts s

/-- All ways of splitting a string in two. -/
def splitsAt (s : JSStr) : List (JSStr × JSStr) :=
  (List.range (s.length + 1)).map (fun i => (s.take i, s.drop i))

/-- `new RegExp("^" + R + "(/.*)?$").test(s)`: the glob matches a prefix and the
rest is empty or a `/`-led suffix without line terminators (regex `.` again). -/
def testWithSuffix (ts : List GlobTok) (s : JSStr) : Bool :=
  (splitsAt s).any fun pr =>
    globTest ts pr.1 &&
      (pr.2.isEmpty ||
        (pr.2.head? == some 47 && (pr.2.drop 1).all (fun c => !isLineTerm c)))

/-- `new RegExp("(^|/)" + R + "(/|$)").test(s)`: the glob matches a whole path
segment run anywhere in the path. -/
def testAnywhere (ts : List GlobTok) (s : JSStr) : Bool :=
  (splitsAt s).any fun pr =>
    (pr.1.isEmpty || pr.1.getLast? == some 47) &&
      (splitsAt pr.2).any fun mr =>
        globTest ts mr.1 && (mr.2.isEmpty || mr.2.head? == some 47)

/-- `GitignoreManager.normalizePath`: backslashes to slashes, then strip leading and
trailing slash runs. -/
def normalizePath (p : JSStr) : JSStr :=
  let q := p.map (fun c => if c == 92 then 47 else c)
  ((q.dropWhile (fun c => c == 47)).reverse.dropWhile (fun c => c == 47)).reverse

/-- `filePath.split("/").pop() || ""`: the last path segment. -/
def lastSegment (f : JSStr) : JSStr :=
  (f.reverse.takeWhile (fun c => !(c == 47))).reverse

/-- `p.endsWith("/**")`. -/
def endsWithSlashStarStar (p : JSStr) : Bool := p.reverse.take 3 == [42, 42, 47]

/-- `GitignoreManager.isMatch`. -/
def isMatch (pattern filePath : JSStr) (isDirectory : Bool) : Bool :=
  let p := normalizePath pattern
  let f := normalizePath filePath
  if isDirectory && !(p.contains 47) then
    testAnywhere (compileGlob p) f
  else if !isDirectory && !(p.contains 47) then
    globTest (compileGlob p) (lastSegment f)
  else if isDirectory || endsWithSlashStarStar p then
    testWithSuffix (compileGlob p) f
  else
    globTest (compileGlob p) f

/-- One stored ignore rule: the normalized pattern and its directory flag. -/
structure IgnorePattern where
  pattern : JSStr
  isDirectory : Bool
deriving Repr, DecidableEq

/-- JavaScript `String.prototype.trim` whitespace (the common subset). -/
def isJsSpace (c : Nat) : Bool := c == 32 || (9 ≤ c && c ≤ 13)

def trimJs (s : JSStr) : JSStr :=
  ((s.dropWhile isJsSpace).reverse.dropWhile isJsSpace).reverse

/-- `content.split(/\r?\n/)`: split at newlines, each eating one preceding CR. -/
def splitLines (content : JSStr) : List JSStr :=
  (content.splitOn 10).map (fun l => if l.getLast? == some 13 then l.dropLast else l)

/-- The pattern list built by `GitignoreManager.loadGitignore`: lines are trimmed,
blank and `#` lines dropped, each pattern normalized, and the directory flag set to
`!pattern.includes(".") || pattern.endsWith("/")`.  (Note: `normalizePath` has
already removed any trailing slash at that point.) -/
def parseGitignorePatterns (content : JSStr) : List IgnorePattern :=
  (((splitLines content).map trimJs).filter
      (fun l => !l.isEmpty && !(l.head? == some 35))).map
    (fun l =>
      let p := normalizePath l
      ⟨p, !(p.contains 46) || p.getLast? == some 47⟩)

/-- One iteration of the `shouldIgnore` loop: a matching negated rule (leading `!`)
sets the verdict to `false`, a matching positive rule sets it to `true`. -/
def applyRule (filePath : JSStr) (acc : Bool) (pr : IgnorePattern) : Bool :=
  if pr.pattern.head? == some 33 then
    if isMatch (pr.pattern.drop 1) filePath pr.isDirectory then false else acc
  else if isMatch pr.pattern filePath pr.isDirectory then true else acc

/-- `GitignoreManager.shouldIgnore`: rules are folded in file order. -/
def shouldIgnore (patterns : List IgnorePattern) (filePath : JSStr) : Bool :=
  patterns.foldl (applyRule filePath) false

/-- Whether a stored rule (positive or negated) matches a path. -/
def ruleMatches (filePath : JSStr) (pr : IgnorePattern) : Bool :=
  if pr.pattern.head? == some 33 then isMatch (pr.pattern.drop 1) filePath pr.isDirectory
  else isMatch pr.pattern filePath pr.isDirectory

/-- The last-match-wins reading of an ordered rule list: the verdict of the last
matching rule (`true` for positive, `false` for negated), `false` if none match. -/
def lastMatchVerdict (patterns : List IgnorePattern) (filePath : JSStr) : Bool :=
  match (patterns.filter (ruleMatches filePath)).getLast? with
  | none => false
  | some pr => !(pr.pattern.head? == some 33)

/-! ## `SyncManager.isBinaryContent` and `SyncManager.prepareFiles` -/

/-- Model of the platform `TextDecoder` (UTF-8): well-formed sequences decode to
their UTF-16 code units (astral code points as surrogate pairs); malformed bytes
decode to U+FFFD.  Fuel-based (one byte at least is consumed per step). -/
def decodeUtf8Go : Nat → List Nat → JSStr
  | 0, _ => []
  | _ + 1, [] => []
  | fuel + 1, b :: rest =>
      if b < 128 then b :: decodeUtf8Go fuel rest
      else if b < 194 then 65533 :: decodeUtf8Go fuel rest
      else if b < 224 then
        match rest with
        | b2 :: rest2 =>
            if 128 ≤ b2 && b2 < 192 then
              ((b - 192) * 64 + (b2 - 128)) :: decodeUtf8Go fuel rest2
            else 65533 :: decodeUtf8Go fuel rest
        | [] => [65533]
      else if b < 240 then
        match rest with
        | b2 :: b3 :: rest3 =>
            if (128 ≤ b2 && b2 < 192) && (128 ≤ b3 && b3 < 192) then
              ((b - 224) * 4096 + (b2 - 128) * 64 + (b3 - 128)) :: decodeUtf8Go fuel rest3
            else 65533 :: decodeUtf8Go fuel rest
        | _ => [65533]
      else if b < 245 then
        match rest with
        | b2 :: b3 :: b4 :: rest4 =>
            if ((128 ≤ b2 && b2 < 192) && (128 ≤ b3 && b3 < 192)) && (128 ≤ b4 && b4 < 192) then
              let cp := (b - 240) * 262144 + (b2 - 128) * 4096 + (b3 - 128) * 64 + (b4 - 128)
              if cp < 65536 then cp :: decodeUtf8Go fuel rest4
              else (55296 + (cp - 65536) / 1024) :: (56320 + (cp - 65536) % 1024) ::
                     decodeUtf8Go fuel rest4
            else 65533 :: decodeUtf8Go fuel rest
        | _ => [65533]
      else 65533 :: decodeUtf8Go fuel rest

/-- `new TextDecoder().decode(bytes)`. -/
def decodeUtf8 (bytes : List Nat) : JSStr := decodeUtf8Go bytes.length bytes

/-- `SyncManager.isBinaryContent`.  The source compares
`nonPrintableCount / sampleSize > 0.3` in floating point; with `sampleSize ≤ 1024`
no exact ratio lies strictly between `0.3` and its nearest double, so the exact
rational comparison `10 * nonPrintable > 3 * sample` decides identically. -/
def isBinaryContent (content : List Nat) : Bool :=
  let sampleSize := min content.length 1024
  let sample := content.take 1024
  let nullCount := (sample.filter (fun b => b == 0)).length
  let nonPrintableCount :=
    (sample.filter (fun b => (b < 32 && !(b == 9 || b == 10 || b == 13)) || b == 127)).length
  if nullCount > 0 then true
  else 10 * nonPrintableCount > 3 * sampleSize

/-- A candidate workspace file: its workspace-relative path and raw bytes. -/
structure RawFile where
  path : JSStr
  bytes : List Nat
deriving Repr, DecidableEq

/-- An eligible file as the sync pass sees it (`FileContent` in `src/types.ts`,
without the unused `size` field). -/
structure FileContent where
  path : JSStr
  content : JSStr
deriving Repr, DecidableEq

/-- `SyncManager.prepareFiles`: drop files matched by the merged exclusion predicate
(configured globs or gitignore rules), files over the size limit, and binary files;
decode the rest.  (The unreadable-file catch and the persisted binary-exclusion
side effect do not alter the returned list and are not modelled.) -/
def prepareFiles (excluded : JSStr → Bool) (maxFileSize : Nat) : List RawFile → List FileContent
  | [] => []
  | c :: cs =>
      if excluded c.path then prepareFiles excluded maxFileSize cs
      else if c.bytes.length > maxFileSize then prepareFiles excluded maxFileSize cs
      else if isBinaryContent c.bytes then prepareFiles excluded maxFileSize cs
      else ⟨c.path, decodeUtf8 c.bytes⟩ :: prepareFiles excluded maxFileSize cs

/-! ## The `syncFiles` pass of `src/syncManager.ts`

The remote store is an explicit document list; the `ClaudeClient` calls are modelled
as state updates plus an issued-operation trace, with a fault-injection environment
saying which calls throw and when the progress token reports cancellation. -/

/-- A remote project document (`FileDoc` in `src/claude/client.ts`). -/
structure RemoteDoc where
  uuid : Nat
  file_name : JSStr
  content : JSStr
deriving Repr, DecidableEq

/-- A remote-store document call issued by the pass. -/
inductive StoreOp where
  | listOp : StoreOp
  | deleteOp (uuid : Nat) : StoreOp
  | createOp (name content : JSStr) : StoreOp
deriving Repr, DecidableEq

/-- Fault and cancellation injection for one pass: which remote calls throw, and
from which per-file loop index on the progress token reports cancellation. -/
structure SyncEnv where
  ensureThrows : Bool := false
  listThrows : Bool := false
  deleteThrows : Nat → Bool := fun _ => false
  createThrows : JSStr → Bool := fun _ => false
  cancelFrom : Option Nat := none

/-- Whether `token.isCancellationRequested` is `true` when `k` files have been
processed. -/
def SyncEnv.cancelled (env : SyncEnv) (k : Nat) : Bool :=
  match env.cancelFrom with
  | some n => Nat.ble n k
  | none => false

/-- The environment of a fault-free, uncancelled pass. -/
def noFailEnv : SyncEnv := {}

/-- Mutable state of the per-file upload loop. -/
structure LoopState where
  remote : List RemoteDoc
  nextUuid : Nat
  skipped : Nat
  synced : Nat
  ops : List StoreOp
deriving Repr, DecidableEq

/-- `claudeClient.uploadFile` followed by `synced++`; the `Bool` is "the call threw". -/
def createFile (env : SyncEnv) (f : FileContent) (st : LoopState) : LoopState × Bool :=
  if env.createThrows f.path then
    ({ st with ops := st.ops ++ [.createOp f.path f.content] }, true)
  else
    ({ st with
        remote := st.remote ++ [⟨st.nextUuid, f.path, f.content⟩],
        nextUuid := st.nextUuid + 1,
        synced := st.synced + 1,
        ops := st.ops ++ [.createOp f.path f.content] }, false)

/-- The body of the per-file upload loop: look the file up by name in the listing
taken at the start of the pass; on a match compare fingerprints and either skip or
delete-then-create; otherwise create. -/
def processFile (env : SyncEnv) (existing : List RemoteDoc) (f : FileContent)
    (st : LoopState) : LoopState × Bool :=
  match existing.find? (fun d => d.file_name == f.path) with
  | some d =>
      if computeSHA256Hash d.content == computeSHA256Hash f.content then
        ({ st with skipped := st.skipped + 1 }, false)
      else if env.deleteThrows d.uuid then
        ({ st with ops := st.ops ++ [.deleteOp d.uuid] }, true)
      else
        createFile env f
          { st with
              remote := st.remote.filter (fun x => !(x.uuid == d.uuid)),
              ops := st.ops ++ [.deleteOp d.uuid] }
  | none => createFile env f st

/-- How the per-file loop ended. -/
inductive LoopExit where
  | completed : LoopExit
  | cancelled : LoopExit
  | thrown : LoopExit
deriving Repr, DecidableEq

/-- The per-file upload loop: cancellation is polled at each file boundary; a thrown
remote call aborts the loop (there is no per-file catch in the upload loop). -/
def syncLoop (env : SyncEnv) (existing : List RemoteDoc) :
    List FileContent → Nat → LoopState → LoopState × LoopExit
  | [], _, st => (st, .completed)
  | f :: fs, k, st =>
      if env.cancelled k then (st, .cancelled)
      else
        let r := processFile env existing f st
        if r.2 then (r.1, .thrown)
        else syncLoop env existing fs (k + 1) r.1

/-- The remote-cleanup loop: each delete is individually caught, a failure only
skips that document. -/
def cleanupLoop (env : SyncEnv) :
    List RemoteDoc → List RemoteDoc → Nat → List StoreOp → List RemoteDoc × Nat × List StoreOp
  | [], remote, deleted, ops => (remote, deleted, ops)
  | d :: ds, remote, deleted, ops =>
      if env.deleteThrows d.uuid then
        cleanupLoop env ds remote deleted (ops ++ [.deleteOp d.uuid])
      else
        cleanupLoop env ds (remote.filter (fun x => !(x.uuid == d.uuid))) (deleted + 1)
          (ops ++ [.deleteOp d.uuid])

/-- The `SyncResult` value returned by `SyncManager.syncFiles` (`data` flattened). -/
structure SyncResultM where
  success : Bool
  message : JSStr
  syncedFiles : Nat := 0
  skippedFiles : Nat := 0
  deletedFiles : Nat := 0
  totalFiles : Nat := 0
deriving Repr, DecidableEq

/-- Decimal rendering of a counter, as a JavaScript string. -/
def natToJsGo : Nat → Nat → JSStr → JSStr
  | 0, _, acc => acc
  | fuel + 1, n, acc =>
      if n < 10 then (48 + n) :: acc else natToJsGo fuel (n / 10) ((48 + n % 10) :: acc)

def natToJs (n : Nat) : JSStr := natToJsGo (n + 1) n []

/-- The success message template of `syncFiles`. -/
def successMessage (total skipped deleted : Nat) : JSStr :=
  js "Successfully synced " ++ natToJs total ++ js " file" ++
  (if total == 1 then [] else js "s") ++ js " with Claude" ++
  (if skipped > 0 then
    js " (" ++ natToJs skipped ++ js " unchanged file" ++
    (if skipped == 1 then [] else js "s") ++ js " skipped)"
   else []) ++
  (if deleted > 0 then
    js " and removed " ++ natToJs deleted ++ js " remote file" ++
    (if deleted == 1 then [] else js "s")
   else [])

/-- The largest uuid among the listed documents (used to mint fresh server uuids). -/
def maxUuid (docs : List RemoteDoc) : Nat := docs.foldl (fun m d => max m d.uuid) 0

/-- The observable outcome of one `syncFiles` pass: the returned result, the final
remote store contents, the trace of issued document calls, and how the upload loop
ended (`none` when it was never reached). -/
structure PassOutput where
  result : SyncResultM
  finalRemote : List RemoteDoc
  ops : List StoreOp
  exit : Option LoopExit
deriving Repr, DecidableEq

/-- `SyncManager.syncFiles` for one pass, wrapped in `handleError` (a throw anywhere
inside becomes `success: false, message: "Failed to sync files"`). -/
def syncFilesM (env : SyncEnv) (cleanupRemoteFiles : Bool) (excluded : JSStr → Bool)
    (maxFileSize : Nat) (candidates : List RawFile) (remote0 : List RemoteDoc) : PassOutput :=
  if env.ensureThrows then
    ⟨⟨false, js "Failed to sync files", 0, 0, 0, 0⟩, remote0, [], none⟩
  else
    let fcs := prepareFiles excluded maxFileSize candidates
    if fcs.isEmpty then
      ⟨⟨false, js "No valid files to sync", 0, 0, 0, 0⟩, remote0, [], none⟩
    else if env.listThrows then
      ⟨⟨false, js "Failed to sync files", 0, 0, 0, 0⟩, remote0, [.listOp], none⟩
    else
      let st0 : LoopState := ⟨remote0, maxUuid remote0 + 1, 0, 0, [.listOp]⟩
      let lr := syncLoop env remote0 fcs 0 st0
      match lr.2 with
      | .thrown =>
          ⟨⟨false, js "Failed to sync files", 0, 0, 0, 0⟩, lr.1.remote, lr.1.ops, some .thrown⟩
      | .cancelled =>
          ⟨⟨true, successMessage fcs.length lr.1.skipped 0, lr.1.synced, lr.1.skipped, 0,
             fcs.length⟩, lr.1.remote, lr.1.ops, some .cancelled⟩
      | .completed =>
          if cleanupRemoteFiles && !env.cancelled fcs.length then
            let localPaths := fcs.map (fun f => f.path)
            let toDelete := remote0.filter (fun d => !(localPaths.contains d.file_name))
            let cr := cleanupLoop env toDelete lr.1.remote 0 lr.1.ops
            ⟨⟨true, successMessage fcs.length lr.1.skipped cr.2.1, lr.1.synced, lr.1.skipped,
               cr.2.1, fcs.length⟩, cr.1, cr.2.2, some .completed⟩
          else
            ⟨⟨true, successMessage fcs.length lr.1.skipped 0, lr.1.synced, lr.1.skipped, 0,
               fcs.length⟩, lr.1.remote, lr.1.ops, some .completed⟩

/-! ## The retry supervisor of `src/extension.ts` (`syncFiles` command wrapper) -/

/-- What one `syncManager.syncFiles` attempt reports back to the supervisor. -/
structure AttemptRes where
  success : Bool
  message : JSStr
deriving Repr, DecidableEq

/-- The observable outcome of the supervisor: how many pass attempts were made,
whether it ended in success, and whether the cooldown window was started and the
terminal "Failed to sync files, is your Claude session token correct?" error shown. -/
structure SupOutcome where
  calls : Nat
  success : Bool
  cooldownStarted : Bool
  errorShown : Bool
deriving Repr, DecidableEq

/-- The retry `while` loop: stop on success or on a "Project not initialized"
result; otherwise increment `attempt`, breaking once it reaches `maxRetries`.
`fuel = maxRetries` always suffices since `attempt` grows each iteration. -/
def supLoop (res : Nat → AttemptRes) (maxRetries : Nat) : Nat → Nat → Nat → Nat × Bool
  | 0, _, calls => (calls, false)
  | fuel + 1, attempt, calls =>
      if attempt < maxRetries then
        let r := res calls
        if r.success then (calls + 1, true)
        else if jsIncludes r.message (js "Project not initialized") then (calls + 1, false)
        else if attempt + 1 ≥ maxRetries then (calls + 1, false)
        else supLoop res maxRetries fuel (attempt + 1) (calls + 1)
      else (calls, false)

/-- The supervisor around a sync request: run the retry loop; if it did not succeed,
start the cooldown window and show the terminal error message. -/
def supervisor (res : Nat → AttemptRes) (maxRetries : Nat) : SupOutcome :=
  let lr := supLoop res maxRetries maxRetries 0 0
  ⟨lr.1, lr.2, !lr.2, !lr.2⟩

/-- `maxRetries` in the `syncFiles` command of `src/extension.ts`. -/
def extensionMaxRetries : Nat := 20

/-- The upload loop of a pass, started on the listing snapshot with fresh uuids
above every listed document. -/
def passLoop (env : SyncEnv) (excluded : JSStr → Bool) (maxFileSize : Nat)
    (candidates : List RawFile) (remote0 : List RemoteDoc) : LoopState × LoopExit :=
  syncLoop env remote0 (prepareFiles excluded maxFileSize candidates) 0
    ⟨remote0, maxUuid remote0 + 1, 0, 0, [.listOp]⟩

/-- The cleanup phase of a pass, run after the upload loop completed. -/
def passCleanup (env : SyncEnv) (excluded : JSStr → Bool) (maxFileSize : Nat)
    (candidates : List RawFile) (remote0 : List RemoteDoc) :
    List RemoteDoc × Nat × List StoreOp :=
  cleanupLoop env
    (remote0.filter (fun d =>
      !(((prepareFiles excluded maxFileSize candidates).map (fun f => f.path)).contains
        d.file_name)))
    (passLoop env excluded maxFileSize candidates remote0).1.remote 0
    (passLoop env excluded maxFileSize candidates remote0).1.ops

/-- The environment of the C10 run: the create call for `a.txt` throws. -/
def atomicityEnv : SyncEnv := { createThrows := fun p => p == js "a.txt" }

/-- The C10 run: the remote holds `a.txt` with content `"old"`, the local file
`a.txt` has content `"new"`; the delete succeeds and the re-create throws. -/
def atomicityPass : PassOutput :=
  syncFilesM atomicityEnv false (fun _ => false) 100
    [⟨js "a.txt", [110, 101, 119]⟩] [⟨1, js "a.txt", js "old"⟩]

/-- The C3 run: two eligible files, the create call for the first one throws. -/
def c3Env : SyncEnv := { createThrows := fun p => p == js "b.txt" }

def c3Pass : PassOutput :=
  syncFilesM c3Env false (fun _ => false) 100
    [⟨js "b.txt", [104]⟩, ⟨js "c.txt", [105]⟩] []

/-- The attempt result the supervisor sees when every remote call raises an
authentication error: `handleError` converts the throw into this generic failure. -/
def authAttemptRes : AttemptRes := ⟨false, js "Failed to sync files"⟩

/-- The pass environment in which the first remote call (made while resolving the
organization and project) throws, as an always-failing authentication error does. -/
def authFailEnv : SyncEnv := { ensureThrows := true }

/-- The remote documents whose `file_name` equals `p`. -/
def docsNamed (r : List RemoteDoc) (p : JSStr) : List RemoteDoc :=
  r.filter (fun d => d.file_name == p)

/-- Invariant of the upload loop, relative to the listing snapshot `existing`, the
fresh-uuid floor `nu0`, the files already processed (`done`) and those remaining
(`rest`): uuids are distinct and below the next fresh uuid, every document is either
from the listing or freshly created for a processed file, documents named after a
remaining file are untouched, and every processed file has exactly one remote
document with its name, whose fingerprint matches. -/
def LoopInv (existing : List RemoteDoc) (nu0 : Nat) (done rest : List FileContent)
    (st : LoopState) : Prop :=
  (st.remote.map (fun d => d.uuid)).Nodup ∧
  (∀ d ∈ st.remote, d.uuid < st.nextUuid) ∧
  nu0 ≤ st.nextUuid ∧
  (∀ d ∈ st.remote, d ∈ existing ∨
    (nu0 ≤ d.uuid ∧ d.file_name ∈ done.map (fun g => g.path))) ∧
  (∀ f ∈ rest, docsNamed st.remote f.path = docsNamed existing f.path) ∧
  (∀ f ∈ done, ∃ d, docsNamed st.remote f.path = [d] ∧
    computeSHA256Hash d.content = computeSHA256Hash f.content)

/-! ## Helper lemmas -/

lemma getLast?_cons_of_ne (a : α) (l : List α) (h : l ≠ []) :
    (a :: l).getLast? = l.getLast? := by
  cases l with
  | nil => exact absurd rfl h
  | cons b bs => exact List.getLast?_cons_cons

lemma applyRule_matches (f : JSStr) (b : Bool) (pr : IgnorePattern)
    (h : ruleMatches f pr = true) :
    applyRule f b pr = !(pr.pattern.head? == some 33) := by
  unfold applyRule
  unfold ruleMatches at h
  by_cases hneg : (pr.pattern.head? == some 33) = true
  · rw [if_pos hneg] at h ⊢
    rw [if_pos h, hneg]
    rfl
  · rw [if_neg hneg] at h ⊢
    rw [Bool.not_eq_true] at hneg
    rw [if_pos h, hneg]
    rfl

lemma applyRule_not_matches (f : JSStr) (b : Bool) (pr : IgnorePattern)
    (h : ruleMatches f pr = false) :
    applyRule f b pr = b := by
  unfold applyRule
  unfold ruleMatches at h
  by_cases hneg : (pr.pattern.head? == some 33) = true
  · rw [if_pos hneg] at h ⊢
    rw [if_neg (by rw [h]; exact Bool.false_ne_true)]
  · rw [if_neg hneg] at h ⊢
    rw [if_neg (by rw [h]; exact Bool.false_ne_true)]

lemma elim_getLast?_of_ne_nil (l : List α) (h : l ≠ []) (x y : β) (v : α → β) :
    l.getLast?.elim x v = l.getLast?.elim y v := by
  obtain ⟨r, hr⟩ := Option.isSome_iff_exists.1 (List.getLast?_isSome.2 h)
  rw [hr]
  rfl

lemma foldl_applyRule (f : JSStr) (ps : List IgnorePattern) :
    ∀ b : Bool, ps.foldl (applyRule f) b =
      ((ps.filter (ruleMatches f)).getLast?).elim b (fun pr => !(pr.pattern.head? == some 33)) := by
  induction ps with
  | nil => intro b; rfl
  | cons p ps ih =>
    intro b
    rw [List.foldl_cons, List.filter_cons, ih]
    by_cases hm : ruleMatches f p = true
    · rw [if_pos hm, applyRule_matches f b p hm]
      cases hfl : ps.filter (ruleMatches f) with
      | nil => rfl
      | cons q qs =>
        rw [getLast?_cons_of_ne p (q :: qs) (by simp)]
        exact elim_getLast?_of_ne_nil (q :: qs) (by simp) _ _ _
    · rw [Bool.not_eq_true] at hm
      rw [applyRule_not_matches f b p hm, if_neg (by rw [hm]; exact Bool.false_ne_true)]

/-! ## C6 — the content fingerprinter -/

set_option maxRecDepth 1000000 in
/-- C6 counterexample: `computeSHA256Hash` does not hash the raw (UTF-8) bytes of the
content — for the one-character content `"é"` it hashes the byte `0xE9` (the UTF-16
code unit truncated to a byte) while the raw bytes are `0xC3 0xA9`, and the two
digests differ. -/
theorem computeSHA256Hash_cex :
    ¬ (computeSHA256Hash (js "é") = specContentFingerprint (js "é")) := by decide

/-- C6 (amended): `computeSHA256Hash` is deterministic — identical content always
yields the identical digest — and for ASCII content (every code unit below 128) its
result is exactly the SHA-256 digest of the raw bytes of the content rendered as a
lowercase hex string; in general it digests the UTF-16 code units truncated
modulo 256, not the raw bytes. -/
theorem computeSHA256Hash_deterministic_ascii :
    (∀ s t : JSStr, s = t → computeSHA256Hash s = computeSHA256Hash t) ∧
    (∀ s : JSStr, (∀ c ∈ s, c < 128) → computeSHA256Hash s = specContentFingerprint s) := by
  constructor
  · intro s t h
    rw [h]
  · intro s h
    unfold computeSHA256Hash specContentFingerprint
    have hb : str2ab s = rawBytesOfContent s := by
      unfold str2ab rawBytesOfContent
      induction s with
      | nil => rfl
      | cons c cs ih =>
        have hc : c < 128 := h c (by simp)
        have hcs : ∀ x ∈ cs, x < 128 := fun x hx => h x (by simp [hx])
        rw [List.map_cons, List.map_cons, List.flatten_cons, ih hcs]
        have henc : utf8EncodeChar c = [c] := by
          unfold utf8EncodeChar
          rw [if_pos hc]
        rw [henc, Nat.mod_eq_of_lt (lt_trans hc (by norm_num))]
        rfl
    rw [hb]

/-- C6 witness: the amended theorem applied to the ASCII content `"abc"`. -/
theorem computeSHA256Hash_deterministic_ascii_witness :
    (∀ c ∈ js "abc", c < 128) ∧
    computeSHA256Hash (js "abc") = specContentFingerprint (js "abc") :=
  ⟨by decide, computeSHA256Hash_deterministic_ascii.2 (js "abc") (by decide)⟩

/-! ## C7 — negation ordering and last-match-wins -/

/-- C7: with ignore lines `"build/"` then `"!build/keep.txt"`, `shouldIgnore` returns
`false` for `build/keep.txt` and `true` for `build/other.txt`; and in general
`shouldIgnore` equals the verdict of the last matching rule in file order (positive
rule → ignored, negated rule → kept), `false` when no rule matches. -/
theorem shouldIgnore_negation_lastMatchWins :
    (shouldIgnore (parseGitignorePatterns (js "build/\n!build/keep.txt"))
        (js "build/keep.txt") = false ∧
     shouldIgnore (parseGitignorePatterns (js "build/\n!build/keep.txt"))
        (js "build/other.txt") = true) ∧
    ∀ (patterns : List IgnorePattern) (filePath : JSStr),
      shouldIgnore patterns filePath = lastMatchVerdict patterns filePath := by
  refine ⟨⟨by decide, by decide⟩, ?_⟩
  intro ps f
  rw [shouldIgnore, foldl_applyRule, lastMatchVerdict]
  cases (ps.filter (ruleMatches f)).getLast? with
  | none => rfl
  | some pr => rfl

/-! ## C8 — trailing-slash directory patterns -/

/-- C8: evaluation of the code at the failing input.  The ignore line `"build.d/"`
is written with a trailing slash, so per the spec it should be a directory-style
pattern and `build.d/file.txt` should be ignored.  But `loadGitignore` normalizes
the pattern (stripping the trailing slash) before testing `pattern.endsWith("/")`,
so the stored rule is `⟨"build.d", isDirectory := false⟩` and the file under the
directory is not ignored. -/
theorem trailingSlashPattern_notDirectory :
    parseGitignorePatterns (js "build.d/") =
      [⟨js "build.d", false⟩] ∧
    shouldIgnore (parseGitignorePatterns (js "build.d/")) (js "build.d/file.txt") = false := by
  exact ⟨by decide, by decide⟩

/-! ## C9 — empty eligible set -/

/-- C9: if the eligible file set after filtering is empty, the pass returns a failure
result with message "No valid files to sync" and issues no remote document call
(no listing, creation or deletion): the operation trace is empty. -/
theorem emptyEligibleSet_noRemoteCalls
    (env : SyncEnv) (cleanup : Bool) (excluded : JSStr → Bool) (maxFileSize : Nat)
    (candidates : List RawFile) (remote0 : List RemoteDoc)
    (henv : env.ensureThrows = false)
    (hempty : prepareFiles excluded maxFileSize candidates = []) :
    syncFilesM env cleanup excluded maxFileSize candidates remote0 =
      ⟨⟨false, js "No valid files to sync", 0, 0, 0, 0⟩, remote0, [], none⟩ := by
  unfold syncFilesM
  simp [henv, hempty]

/-- C9 witness: a pass whose single candidate is excluded by the merged rules. -/
theorem emptyEligibleSet_noRemoteCalls_witness :
    noFailEnv.ensureThrows = false ∧
    prepareFiles (fun _ => true) 100 [⟨js "a", [104]⟩] = [] ∧
    syncFilesM noFailEnv false (fun _ => true) 100 [⟨js "a", [104]⟩] [] =
      ⟨⟨false, js "No valid files to sync", 0, 0, 0, 0⟩, [], [], none⟩ :=
  ⟨rfl, by decide, emptyEligibleSet_noRemoteCalls _ _ _ _ _ _ rfl (by decide)⟩

/-! ## C10 — delete-then-create is not atomic -/

set_option maxRecDepth 1000000 in
/-- C10: the delete-then-create update is not atomic.  In the run above the pass
reports failure, the issued calls are exactly list, delete, then the failed create,
and the remote store ends empty: the document that existed before the pass is gone
and was not recreated. -/
theorem deleteThenCreate_notAtomic :
    atomicityPass.result.success = false ∧
    atomicityPass.finalRemote = [] ∧
    atomicityPass.ops = [.listOp, .deleteOp 1, .createOp (js "a.txt") [110, 101, 119]] := by
  have h : atomicityPass =
      ⟨⟨false, js "Failed to sync files", 0, 0, 0, 0⟩, [],
        [.listOp, .deleteOp 1, .createOp (js "a.txt") [110, 101, 119]], some .thrown⟩ := by
    decide
  rw [h]
  exact ⟨rfl, rfl, rfl⟩

/-! ## Branch lemmas for `syncFilesM` -/

lemma syncFilesM_thrown_eq (env : SyncEnv) (cleanup : Bool) (excluded : JSStr → Bool)
    (maxFileSize : Nat) (candidates : List RawFile) (remote0 : List RemoteDoc)
    (henv : env.ensureThrows = false)
    (hne : (prepareFiles excluded maxFileSize candidates).isEmpty = false)
    (hlist : env.listThrows = false)
    (hexit : (passLoop env excluded maxFileSize candidates remote0).2 = .thrown) :
    syncFilesM env cleanup excluded maxFileSize candidates remote0 =
      ⟨⟨false, js "Failed to sync files", 0, 0, 0, 0⟩,
        (passLoop env excluded maxFileSize candidates remote0).1.remote,
        (passLoop env excluded maxFileSize candidates remote0).1.ops, some .thrown⟩ := by
  rw [passLoop] at hexit
  simp only [syncFilesM, passLoop, henv, hne, hlist, hexit, Bool.false_eq_true, if_false]

lemma syncFilesM_completed_eq (env : SyncEnv) (cleanup : Bool) (excluded : JSStr → Bool)
    (maxFileSize : Nat) (candidates : List RawFile) (remote0 : List RemoteDoc)
    (henv : env.ensureThrows = false)
    (hne : (prepareFiles excluded maxFileSize candidates).isEmpty = false)
    (hlist : env.listThrows = false)
    (hexit : (passLoop env excluded maxFileSize candidates remote0).2 = .completed) :
    syncFilesM env cleanup excluded maxFileSize candidates remote0 =
      (if (cleanup && !env.cancelled (prepareFiles excluded maxFileSize candidates).length) = true
       then
         ⟨⟨true, successMessage (prepareFiles excluded maxFileSize candidates).length
             (passLoop env excluded maxFileSize candidates remote0).1.skipped
             (passCleanup env excluded maxFileSize candidates remote0).2.1,
           (passLoop env excluded maxFileSize candidates remote0).1.synced,
           (passLoop env excluded maxFileSize candidates remote0).1.skipped,
           (passCleanup env excluded maxFileSize candidates remote0).2.1,
           (prepareFiles excluded maxFileSize candidates).length⟩,
          (passCleanup env excluded maxFileSize candidates remote0).1,
          (passCleanup env excluded maxFileSize candidates remote0).2.2, some .completed⟩
       else
         ⟨⟨true, successMessage (prepareFiles excluded maxFileSize candidates).length
             (passLoop env excluded maxFileSize candidates remote0).1.skipped 0,
           (passLoop env excluded maxFileSize candidates remote0).1.synced,
           (passLoop env excluded maxFileSize candidates remote0).1.skipped, 0,
           (prepareFiles excluded maxFileSize candidates).length⟩,
          (passLoop env excluded maxFileSize candidates remote0).1.remote,
          (passLoop env excluded maxFileSize candidates remote0).1.ops, some .completed⟩) := by
  rw [passLoop] at hexit
  simp only [syncFilesM, passLoop, passCleanup, henv, hne, hlist, hexit,
    Bool.false_eq_true, if_false]

lemma syncFilesM_cancelled_eq (env : SyncEnv) (cleanup : Bool) (excluded : JSStr → Bool)
    (maxFileSize : Nat) (candidates : List RawFile) (remote0 : List RemoteDoc)
    (henv : env.ensureThrows = false)
    (hne : (prepareFiles excluded maxFileSize candidates).isEmpty = false)
    (hlist : env.listThrows = false)
    (hexit : (passLoop env excluded maxFileSize candidates remote0).2 = .cancelled) :
    syncFilesM env cleanup excluded maxFileSize candidates remote0 =
      ⟨⟨true, successMessage (prepareFiles excluded maxFileSize candidates).length
          (passLoop env excluded maxFileSize candidates remote0).1.skipped 0,
        (passLoop env excluded maxFileSize candidates remote0).1.synced,
        (passLoop env excluded maxFileSize candidates remote0).1.skipped, 0,
        (prepareFiles excluded maxFileSize candidates).length⟩,
       (passLoop env excluded maxFileSize candidates remote0).1.remote,
       (passLoop env excluded maxFileSize candidates remote0).1.ops, some .cancelled⟩ := by
  rw [passLoop] at hexit
  simp only [syncFilesM, passLoop, henv, hne, hlist, hexit, Bool.false_eq_true, if_false]

lemma syncFilesM_exit_thrown (env : SyncEnv) (cleanup : Bool) (excluded : JSStr → Bool)
    (maxFileSize : Nat) (candidates : List RawFile) (remote0 : List RemoteDoc)
    (h : (syncFilesM env cleanup excluded maxFileSize candidates remote0).exit = some .thrown) :
    (syncFilesM env cleanup excluded maxFileSize candidates remote0).result =
      ⟨false, js "Failed to sync files", 0, 0, 0, 0⟩ := by
  cases henv : env.ensureThrows with
  | true => simp only [syncFilesM, henv, if_true] at h; simp at h
  | false =>
    cases hemp : (prepareFiles excluded maxFileSize candidates).isEmpty with
    | true => simp only [syncFilesM, henv, hemp, Bool.false_eq_true, if_false, if_true] at h; simp at h
    | false =>
      cases hlist : env.listThrows with
      | true => simp only [syncFilesM, henv, hemp, hlist, Bool.false_eq_true, if_false, if_true] at h; simp at h
      | false =>
        cases hexit : (passLoop env excluded maxFileSize candidates remote0).2 with
        | thrown =>
          rw [syncFilesM_thrown_eq env cleanup excluded maxFileSize candidates remote0
            henv hemp hlist hexit]
        | completed =>
          rw [syncFilesM_completed_eq env cleanup excluded maxFileSize candidates remote0
            henv hemp hlist hexit] at h
          split at h <;> simp at h
        | cancelled =>
          rw [syncFilesM_cancelled_eq env cleanup excluded maxFileSize candidates remote0
            henv hemp hlist hexit] at h
          simp at h

lemma syncFilesM_exit_completed_success (env : SyncEnv) (cleanup : Bool) (excluded : JSStr → Bool)
    (maxFileSize : Nat) (candidates : List RawFile) (remote0 : List RemoteDoc)
    (h : (syncFilesM env cleanup excluded maxFileSize candidates remote0).exit = some .completed) :
    (syncFilesM env cleanup excluded maxFileSize candidates remote0).result.success = true := by
  cases henv : env.ensureThrows with
  | true => simp only [syncFilesM, henv, if_true] at h; simp at h
  | false =>
    cases hemp : (prepareFiles excluded maxFileSize candidates).isEmpty with
    | true => simp only [syncFilesM, henv, hemp, Bool.false_eq_true, if_false, if_true] at h; simp at h
    | false =>
      cases hlist : env.listThrows with
      | true => simp only [syncFilesM, henv, hemp, hlist, Bool.false_eq_true, if_false, if_true] at h; simp at h
      | false =>
        cases hexit : (passLoop env excluded maxFileSize candidates remote0).2 with
        | thrown =>
          rw [syncFilesM_thrown_eq env cleanup excluded maxFileSize candidates remote0
            henv hemp hlist hexit] at h
          simp at h
        | completed =>
          rw [syncFilesM_completed_eq env cleanup excluded maxFileSize candidates remote0
            henv hemp hlist hexit]
          split <;> rfl
        | cancelled =>
          rw [syncFilesM_cancelled_eq env cleanup excluded maxFileSize candidates remote0
            henv hemp hlist hexit] at h
          simp at h

/-! ## C2 — skip on equal fingerprints, delete-before-create on unequal -/

/-- C2: for an eligible file whose path exactly matches a listed remote document:
equal fingerprints skip the file (the skipped counter is incremented and no
document call is issued for it); unequal fingerprints issue the delete of the
existing document and then the create of the new one, in that order. -/
theorem applyingPhase_skip_or_deleteBeforeCreate
    (env : SyncEnv) (existing : List RemoteDoc) (f : FileContent) (st : LoopState)
    (d : RemoteDoc)
    (hfind : existing.find? (fun x => x.file_name == f.path) = some d)
    (hdel : env.deleteThrows d.uuid = false)
    (hcre : env.createThrows f.path = false) :
    (computeSHA256Hash d.content = computeSHA256Hash f.content →
      processFile env existing f st = ({ st with skipped := st.skipped + 1 }, false)) ∧
    (¬(computeSHA256Hash d.content = computeSHA256Hash f.content) →
      processFile env existing f st =
        (⟨st.remote.filter (fun x => !(x.uuid == d.uuid)) ++ [⟨st.nextUuid, f.path, f.content⟩],
          st.nextUuid + 1, st.skipped, st.synced + 1,
          st.ops ++ [.deleteOp d.uuid, .createOp f.path f.content]⟩, false)) := by
  constructor
  · intro hh
    simp only [processFile, hfind]
    rw [if_pos (beq_iff_eq.mpr hh)]
  · intro hh
    simp only [processFile, createFile, hfind]
    rw [if_neg (fun hc => hh (beq_iff_eq.mp hc))]
    rw [if_neg (by rw [hdel]; exact Bool.false_ne_true)]
    rw [if_neg (by rw [hcre]; exact Bool.false_ne_true)]
    simp [List.append_assoc]

/-- C2 witness: the matched document with identical content is skipped. -/
theorem applyingPhase_skip_witness :
    processFile noFailEnv [⟨1, js "p.txt", js "same"⟩] ⟨js "p.txt", js "same"⟩
        ⟨[⟨1, js "p.txt", js "same"⟩], 2, 0, 0, [.listOp]⟩ =
      (⟨[⟨1, js "p.txt", js "same"⟩], 2, 1, 0, [.listOp]⟩, false) :=
  (applyingPhase_skip_or_deleteBeforeCreate noFailEnv _ _ _ ⟨1, js "p.txt", js "same"⟩
    (by decide) rfl rfl).1 rfl

/-! ## C3 — a per-file store error aborts the pass -/

/-- C3 counterexample: in the run above, the create for `b.txt` fails with a generic
(non-authentication) error; the pass is reported as failed (`success = false`) and
the next eligible file `c.txt` is never processed — the issued calls stop at the
failed create.  This refutes "only that file's step is abandoned and the engine
continues to the next eligible file". -/
theorem perFileError_failsWholePass_cex :
    c3Pass.result.success = false ∧
    c3Pass.ops = [.listOp, .createOp (js "b.txt") [104]] := by
  have h : c3Pass =
      ⟨⟨false, js "Failed to sync files", 0, 0, 0, 0⟩, [],
        [.listOp, .createOp (js "b.txt") [104]], some .thrown⟩ := by decide
  rw [h]
  exact ⟨rfl, rfl⟩

/-- C3 (amended): a remote-store error of any kind (authentication or not) thrown by
an individual file's delete or create in the upload loop aborts the remaining pass,
and the pass is reported as failed with the `handleError` message "Failed to sync
files"; a pass whose upload loop completes reports success (in particular,
cleanup-phase deletion failures, which are caught per file, never fail the pass). -/
theorem perFileError_abortsPass :
    (∀ (env : SyncEnv) (cleanup : Bool) (excluded : JSStr → Bool) (maxFileSize : Nat)
        (candidates : List RawFile) (remote0 : List RemoteDoc),
      (syncFilesM env cleanup excluded maxFileSize candidates remote0).exit = some .thrown →
      (syncFilesM env cleanup excluded maxFileSize candidates remote0).result =
        ⟨false, js "Failed to sync files", 0, 0, 0, 0⟩) ∧
    (∀ (env : SyncEnv) (cleanup : Bool) (excluded : JSStr → Bool) (maxFileSize : Nat)
        (candidates : List RawFile) (remote0 : List RemoteDoc),
      (syncFilesM env cleanup excluded maxFileSize candidates remote0).exit = some .completed →
      (syncFilesM env cleanup excluded maxFileSize candidates remote0).result.success = true) :=
  ⟨fun env cleanup excluded maxFileSize candidates remote0 h =>
      syncFilesM_exit_thrown env cleanup excluded maxFileSize candidates remote0 h,
   fun env cleanup excluded maxFileSize candidates remote0 h =>
      syncFilesM_exit_completed_success env cleanup excluded maxFileSize candidates remote0 h⟩

/-- C3 witness: the amended theorem applied to the concrete aborting run. -/
theorem perFileError_abortsPass_witness :
    c3Pass.exit = some .thrown ∧
    c3Pass.result = ⟨false, js "Failed to sync files", 0, 0, 0, 0⟩ :=
  ⟨by decide,
   perFileError_abortsPass.1 c3Env false (fun _ => false) 100
     [⟨js "b.txt", [104]⟩, ⟨js "c.txt", [105]⟩] [] (by decide)⟩

/-! ## C4 — authentication errors and the retry supervisor -/

/-- C4 counterexample: with a client that always raises an authentication error, one
pass attempt yields the generic "Failed to sync files" failure result, and the
supervisor then makes all `maxRetries = 20` attempts — not exactly one. -/
theorem authFailure_notShortCircuited_cex :
    (syncFilesM authFailEnv false (fun _ => false) 100 [⟨js "a", [104]⟩] []).result =
      ⟨false, js "Failed to sync files", 0, 0, 0, 0⟩ ∧
    (supervisor (fun _ => authAttemptRes) extensionMaxRetries).calls = 20 ∧
    ¬((supervisor (fun _ => authAttemptRes) extensionMaxRetries).calls = 1) := by
  refine ⟨by decide, by decide, by decide⟩

lemma supLoop_all_fail (res : Nat → AttemptRes) (m : Nat)
    (h : ∀ k, (res k).success = false ∧
      jsIncludes (res k).message (js "Project not initialized") = false) :
    ∀ fuel attempt calls, attempt < m → m - attempt ≤ fuel →
      supLoop res m fuel attempt calls = (calls + (m - attempt), false) := by
  intro fuel
  induction fuel with
  | zero =>
    intro attempt calls hlt hle
    omega
  | succ fuel ih =>
    intro attempt calls hlt hle
    unfold supLoop
    rw [if_pos hlt]
    obtain ⟨hs, hni⟩ := h calls
    simp only [hs, hni, Bool.false_eq_true, if_false]
    by_cases hge : attempt + 1 ≥ m
    · rw [if_pos hge]
      have hma : m - attempt = 1 := by omega
      rw [hma]
    · rw [if_neg hge, ih (attempt + 1) (calls + 1) (by omega) (by omega)]
      have hma : calls + 1 + (m - (attempt + 1)) = calls + (m - attempt) := by omega
      rw [hma]

/-- C4 (amended): the supervisor does not special-case authentication failures.
Given attempts that always return the generic "Failed to sync files" failure (as a
client that always raises an authentication error produces), it makes all
`maxRetries = 20` attempts, reports no success, starts the cooldown window and
shows the terminal "is your Claude session token correct?" error. -/
theorem authFailure_consumesAllRetries (res : Nat → AttemptRes)
    (h : ∀ k, res k = authAttemptRes) :
    supervisor res extensionMaxRetries = ⟨20, false, true, true⟩ := by
  have hh : ∀ k, (res k).success = false ∧
      jsIncludes (res k).message (js "Project not initialized") = false := by
    intro k
    rw [h k]
    exact ⟨rfl, by decide⟩
  simp only [supervisor, extensionMaxRetries,
    supLoop_all_fail res 20 hh 20 0 0 (by omega) (by omega)]
  rfl

/-- C4 witness: the amended theorem applied to the constant failing attempt. -/
theorem authFailure_consumesAllRetries_witness :
    (∀ k : Nat, (fun _ => authAttemptRes) k = authAttemptRes) ∧
    supervisor (fun _ => authAttemptRes) extensionMaxRetries = ⟨20, false, true, true⟩ :=
  ⟨fun _ => rfl, authFailure_consumesAllRetries (fun _ => authAttemptRes) (fun _ => rfl)⟩

/-! ## Lemmas about uuids and `docsNamed` -/

lemma foldl_max_le (docs : List RemoteDoc) :
    ∀ acc, acc ≤ docs.foldl (fun m d => max m d.uuid) acc ∧
      ∀ d ∈ docs, d.uuid ≤ docs.foldl (fun m d => max m d.uuid) acc := by
  induction docs with
  | nil =>
    intro acc
    exact ⟨le_refl _, by intro d hd; cases hd⟩
  | cons x xs ih =>
    intro acc
    constructor
    · exact le_trans (le_max_left acc x.uuid) (ih (max acc x.uuid)).1
    · intro d hd
      rcases List.mem_cons.mp hd with rfl | hd'
      · exact le_trans (le_max_right acc d.uuid) (ih (max acc d.uuid)).1
      · exact (ih (max acc x.uuid)).2 d hd'

lemma uuid_lt_fresh (remote0 : List RemoteDoc) (d : RemoteDoc) (h : d ∈ remote0) :
    d.uuid < maxUuid remote0 + 1 :=
  Nat.lt_succ_of_le ((foldl_max_le remote0 0).2 d h)

lemma docsNamed_append (r1 r2 : List RemoteDoc) (p : JSStr) :
    docsNamed (r1 ++ r2) p = docsNamed r1 p ++ docsNamed r2 p :=
  List.filter_append r1 r2

lemma docsNamed_singleton_pos (d : RemoteDoc) (p : JSStr) (h : d.file_name = p) :
    docsNamed [d] p = [d] := by
  simp [docsNamed, h]

lemma docsNamed_singleton_neg (d : RemoteDoc) (p : JSStr) (h : ¬(d.file_name = p)) :
    docsNamed [d] p = [] := by
  simp [docsNamed, h]

lemma mem_of_mem_docsNamed (r : List RemoteDoc) (p : JSStr) (d : RemoteDoc)
    (h : d ∈ docsNamed r p) : d ∈ r :=
  (List.mem_filter.mp h).1

lemma name_of_mem_docsNamed (r : List RemoteDoc) (p : JSStr) (d : RemoteDoc)
    (h : d ∈ docsNamed r p) : d.file_name = p :=
  beq_iff_eq.mp (List.mem_filter.mp h).2

lemma docsNamed_filter_comm (r : List RemoteDoc) (p : JSStr) (q : RemoteDoc → Bool) :
    docsNamed (r.filter q) p = (docsNamed r p).filter q := by
  rw [docsNamed, docsNamed, List.filter_filter, List.filter_filter]
  exact List.filter_congr (fun a _ => Bool.and_comm _ _)

lemma docsNamed_of_nodup (r : List RemoteDoc) (d0 : RemoteDoc) (p : JSStr)
    (hn : (r.map (fun d => d.file_name)).Nodup) (hd : d0 ∈ r) (hp : d0.file_name = p) :
    docsNamed r p = [d0] := by
  induction r with
  | nil => cases hd
  | cons x xs ih =>
    rw [List.map_cons, List.nodup_cons] at hn
    rcases List.mem_cons.mp hd with rfl | hd'
    · rw [docsNamed, List.filter_cons, if_pos (beq_iff_eq.mpr hp)]
      have hxs : docsNamed xs p = [] := by
        rw [docsNamed, List.filter_eq_nil_iff]
        intro y hy hyp
        exact hn.1 (hp ▸ (beq_iff_eq.mp hyp) ▸ List.mem_map_of_mem (fun d => d.file_name) hy)
      rw [docsNamed] at hxs
      rw [hxs]
    · have hxp : ¬(x.file_name = p) := by
        intro hx
        have : d0.file_name ∈ xs.map (fun d => d.file_name) :=
          List.mem_map_of_mem (fun d => d.file_name) hd'
        rw [hp, ← hx] at this
        exact hn.1 this
      rw [docsNamed, List.filter_cons, if_neg (fun hc => hxp (beq_iff_eq.mp hc))]
      exact ih hn.2 hd'

lemma find?_of_docsNamed_singleton (r : List RemoteDoc) (p : JSStr) (d : RemoteDoc)
    (h : docsNamed r p = [d]) :
    r.find? (fun x => x.file_name == p) = some d := by
  induction r with
  | nil => exact absurd h (by simp [docsNamed])
  | cons x xs ih =>
    by_cases hx : (x.file_name == p) = true
    · rw [docsNamed, List.filter_cons, if_pos hx] at h
      have hxd : x = d := by
        have := congrArg (fun l => l.head?) h
        simpa using this
      rw [List.find?_cons_of_pos xs hx, hxd]
    · rw [docsNamed, List.filter_cons, if_neg hx] at h
      rw [List.find?_cons_of_neg xs hx]
      exact ih h

/-! ## Preservation of the loop invariant -/

lemma processFile_inv (env : SyncEnv) (existing : List RemoteDoc) (nu0 : Nat)
    (done fs : List FileContent) (f : FileContent) (st : LoopState)
    (hnames : (existing.map (fun d => d.file_name)).Nodup)
    (huuids : (existing.map (fun d => d.uuid)).Nodup)
    (hexlt : ∀ d ∈ existing, d.uuid < nu0)
    (hnodup : ((done ++ f :: fs).map (fun g => g.path)).Nodup)
    (hinv : LoopInv existing nu0 done (f :: fs) st)
    (hok : (processFile env existing f st).2 = false) :
    LoopInv existing nu0 (done ++ [f]) fs (processFile env existing f st).1 := by
  obtain ⟨hN, hB, hnu, hO, hR, hD⟩ := hinv
  rw [List.map_append] at hnodup
  have hsplit := List.nodup_append.mp hnodup
  have hffs : f.path ∉ fs.map (fun g => g.path) := by
    have := hsplit.2.1
    rw [List.map_cons, List.nodup_cons] at this
    exact this.1
  have hfdone : f.path ∉ done.map (fun g => g.path) := by
    intro hmem
    exact hsplit.2.2 hmem (by rw [List.map_cons]; exact List.mem_cons_self _ _)
  cases hfind : existing.find? (fun d => d.file_name == f.path) with
  | none =>
    have hnone : docsNamed existing f.path = [] := by
      rw [docsNamed, List.filter_eq_nil_iff]
      exact List.find?_eq_none.mp hfind
    have hre : docsNamed st.remote f.path = [] := by
      rw [hR f (List.mem_cons_self f fs), hnone]
    cases hct : env.createThrows f.path with
    | true =>
      exfalso
      simp only [processFile, hfind, createFile, hct, if_true] at hok
      exact absurd hok (by simp)
    | false =>
      simp only [processFile, hfind, createFile, hct, Bool.false_eq_true, if_false]
      refine ⟨?_, ?_, ?_, ?_, ?_, ?_⟩
      · rw [List.map_append, List.nodup_append]
        refine ⟨hN, by simp, ?_⟩
        intro a ha hb
        simp only [List.map_cons, List.map_nil, List.mem_singleton] at hb
        obtain ⟨d, hd, hda⟩ := List.mem_map.mp ha
        exact absurd (hda.symm ▸ hb ▸ hB d hd) (lt_irrefl _)
      · intro d hd
        rcases List.mem_append.mp hd with hd1 | hd2
        · exact Nat.lt_succ_of_lt (hB d hd1)
        · simp only [List.mem_singleton] at hd2
          rw [hd2]
          exact Nat.lt_succ_self _
      · exact le_trans hnu (Nat.le_succ _)
      · intro d hd
        rcases List.mem_append.mp hd with hd1 | hd2
        · rcases hO d hd1 with h1 | ⟨h2, h3⟩
          · exact Or.inl h1
          · exact Or.inr ⟨h2, by rw [List.map_append, List.mem_append]; exact Or.inl h3⟩
        · simp only [List.mem_singleton] at hd2
          rw [hd2]
          refine Or.inr ⟨hnu, ?_⟩
          rw [List.map_append, List.mem_append]
          exact Or.inr (by simp)
      · intro g hg
        have hgne : ¬((f.path : JSStr) = g.path) := by
          intro he
          exact hffs (he ▸ List.mem_map_of_mem (fun x => x.path) hg)
        rw [docsNamed_append, docsNamed_singleton_neg _ _ (fun hc => hgne hc),
          List.append_nil]
        exact hR g (List.mem_cons_of_mem f hg)
      · intro g hg
        rcases List.mem_append.mp hg with hg1 | hg2
        · obtain ⟨d, hd1, hd2⟩ := hD g hg1
          refine ⟨d, ?_, hd2⟩
          have hgne : ¬((f.path : JSStr) = g.path) := by
            intro he
            exact hfdone (he ▸ List.mem_map_of_mem (fun x => x.path) hg1)
          rw [docsNamed_append, docsNamed_singleton_neg _ _ (fun hc => hgne hc),
            List.append_nil]
          exact hd1
        · simp only [List.mem_singleton] at hg2
          rw [hg2]
          refine ⟨⟨st.nextUuid, f.path, f.content⟩, ?_, rfl⟩
          rw [docsNamed_append, hre, docsNamed_singleton_pos _ _ rfl, List.nil_append]
  | some d0 =>
    have hd0mem : d0 ∈ existing := List.mem_of_find?_eq_some hfind
    have hd0name : d0.file_name = f.path := by
      simpa using List.find?_some hfind
    have hexact : docsNamed existing f.path = [d0] :=
      docsNamed_of_nodup existing d0 f.path hnames hd0mem hd0name
    have hre : docsNamed st.remote f.path = [d0] := by
      rw [hR f (List.mem_cons_self f fs), hexact]
    have hd0re : d0 ∈ st.remote := by
      refine mem_of_mem_docsNamed st.remote f.path d0 ?_
      rw [hre]
      exact List.mem_singleton.mpr rfl
    have huniq : ∀ d ∈ st.remote, d.uuid = d0.uuid → d = d0 := by
      intro d hd he
      rcases hO d hd with hdex | ⟨hge, _⟩
      · exact List.inj_on_of_nodup_map huuids hdex hd0mem he
      · exact absurd (he ▸ hexlt d0 hd0mem) (by omega)
    cases hhash : (computeSHA256Hash d0.content == computeSHA256Hash f.content) with
    | true =>
      simp only [processFile, hfind, hhash, if_true]
      refine ⟨hN, hB, hnu, ?_, ?_, ?_⟩
      · intro d hd
        rcases hO d hd with h1 | ⟨h2, h3⟩
        · exact Or.inl h1
        · exact Or.inr ⟨h2, by rw [List.map_append, List.mem_append]; exact Or.inl h3⟩
      · intro g hg
        exact hR g (List.mem_cons_of_mem f hg)
      · intro g hg
        rcases List.mem_append.mp hg with hg1 | hg2
        · exact hD g hg1
        · simp only [List.mem_singleton] at hg2
          rw [hg2]
          exact ⟨d0, hre, beq_iff_eq.mp hhash⟩
    | false =>
      cases hdt : env.deleteThrows d0.uuid with
      | true =>
        exfalso
        simp only [processFile, hfind, hhash, hdt, Bool.false_eq_true, if_false,
          if_true] at hok
        exact absurd hok (by simp)
      | false =>
        cases hct : env.createThrows f.path with
        | true =>
          exfalso
          simp only [processFile, createFile, hfind, hhash, hdt, hct,
            Bool.false_eq_true, if_false, if_true] at hok
          exact absurd hok (by simp)
        | false =>
          simp only [processFile, createFile, hfind, hhash, hdt, hct,
            Bool.false_eq_true, if_false]
          have hfilter_named : ∀ p : JSStr, p ≠ f.path →
              docsNamed (st.remote.filter (fun x => !(x.uuid == d0.uuid))) p =
                docsNamed st.remote p := by
            intro p hp
            rw [docsNamed_filter_comm]
            refine List.filter_eq_self.mpr ?_
            intro y hy
            have hyre : y ∈ st.remote := mem_of_mem_docsNamed st.remote p y hy
            have hyname : y.file_name = p := name_of_mem_docsNamed st.remote p y hy
            have : ¬(y.uuid = d0.uuid) := by
              intro he
              have := huniq y hyre he
              rw [this] at hyname
              exact hp (hyname ▸ hd0name)
            simp [this]
          refine ⟨?_, ?_, ?_, ?_, ?_, ?_⟩
          · rw [List.map_append, List.nodup_append]
            refine ⟨(List.Sublist.map (fun d => d.uuid)
                (List.filter_sublist st.remote)).nodup hN, by simp, ?_⟩
            intro a ha hb
            simp only [List.map_cons, List.map_nil, List.mem_singleton] at hb
            obtain ⟨d, hd, hda⟩ := List.mem_map.mp ha
            have hdre : d ∈ st.remote := (List.mem_filter.mp hd).1
            exact absurd (hda.symm ▸ hb ▸ hB d hdre) (lt_irrefl _)
          · intro d hd
            rcases List.mem_append.mp hd with hd1 | hd2
            · exact Nat.lt_succ_of_lt (hB d (List.mem_filter.mp hd1).1)
            · simp only [List.mem_singleton] at hd2
              rw [hd2]
              exact Nat.lt_succ_self _
          · exact le_trans hnu (Nat.le_succ _)
          · intro d hd
            rcases List.mem_append.mp hd with hd1 | hd2
            · rcases hO d (List.mem_filter.mp hd1).1 with h1 | ⟨h2, h3⟩
              · exact Or.inl h1
              · exact Or.inr ⟨h2, by rw [List.map_append, List.mem_append]; exact Or.inl h3⟩
            · simp only [List.mem_singleton] at hd2
              rw [hd2]
              refine Or.inr ⟨hnu, ?_⟩
              rw [List.map_append, List.mem_append]
              exact Or.inr (by simp)
          · intro g hg
            have hgne : ¬((f.path : JSStr) = g.path) := by
              intro he
              exact hffs (he ▸ List.mem_map_of_mem (fun x => x.path) hg)
            rw [docsNamed_append, docsNamed_singleton_neg _ _ (fun hc => hgne hc),
              List.append_nil, hfilter_named g.path (fun hc => hgne hc.symm)]
            exact hR g (List.mem_cons_of_mem f hg)
          · intro g hg
            rcases List.mem_append.mp hg with hg1 | hg2
            · obtain ⟨d, hd1, hd2⟩ := hD g hg1
              refine ⟨d, ?_, hd2⟩
              have hgne : ¬((f.path : JSStr) = g.path) := by
                intro he
                exact hfdone (he ▸ List.mem_map_of_mem (fun x => x.path) hg1)
              rw [docsNamed_append, docsNamed_singleton_neg _ _ (fun hc => hgne hc),
                List.append_nil, hfilter_named g.path (fun hc => hgne hc.symm)]
              exact hd1
            · simp only [List.mem_singleton] at hg2
              rw [hg2]
              refine ⟨⟨st.nextUuid, f.path, f.content⟩, ?_, rfl⟩
              rw [docsNamed_append, docsNamed_filter_comm, hre,
                docsNamed_singleton_pos _ _ rfl]
              have : List.filter (fun x => !(x.uuid == d0.uuid)) [d0] = [] := by
                simp
              rw [this, List.nil_append]

lemma syncLoop_inv (env : SyncEnv) (existing : List RemoteDoc) (nu0 : Nat)
    (hnames : (existing.map (fun d => d.file_name)).Nodup)
    (huuids : (existing.map (fun d => d.uuid)).Nodup)
    (hexlt : ∀ d ∈ existing, d.uuid < nu0) :
    ∀ (rest done : List FileContent) (k : Nat) (st : LoopState),
      ((done ++ rest).map (fun g => g.path)).Nodup →
      LoopInv existing nu0 done rest st →
      (syncLoop env existing rest k st).2 = .completed →
      LoopInv existing nu0 (done ++ rest) [] (syncLoop env existing rest k st).1 := by
  intro rest
  induction rest with
  | nil =>
    intro done k st hnodup hinv hc
    simpa using hinv
  | cons f fs ih =>
    intro done k st hnodup hinv hc
    cases hcan : env.cancelled k with
    | true =>
      exfalso
      simp only [syncLoop, hcan, if_true] at hc
      exact absurd hc (by simp)
    | false =>
      simp only [syncLoop, hcan, Bool.false_eq_true, if_false] at hc ⊢
      cases hth : (processFile env existing f st).2 with
      | true =>
        exfalso
        simp only [hth, if_true] at hc
        exact absurd hc (by simp)
      | false =>
        simp only [hth, Bool.false_eq_true, if_false] at hc ⊢
        have hstep := processFile_inv env existing nu0 done fs f st hnames huuids hexlt
          hnodup hinv hth
        have hres := ih (done ++ [f]) (k + 1) (processFile env existing f st).1
          (by simpa [List.append_assoc] using hnodup) hstep hc
        simpa [List.append_assoc] using hres

lemma syncLoop_no_cancel (env : SyncEnv) (existing : List RemoteDoc)
    (hnc : env.cancelFrom = none) :
    ∀ (fs : List FileContent) (k : Nat) (st : LoopState),
      ¬((syncLoop env existing fs k st).2 = .cancelled) := by
  intro fs
  induction fs with
  | nil =>
    intro k st h
    simp [syncLoop] at h
  | cons f fs ih =>
    intro k st h
    have hcan : env.cancelled k = false := by rw [SyncEnv.cancelled, hnc]
    simp only [syncLoop, hcan, Bool.false_eq_true, if_false] at h
    cases hth : (processFile env existing f st).2 with
    | true => simp only [hth, if_true] at h; exact absurd h (by simp)
    | false =>
      simp only [hth, Bool.false_eq_true, if_false] at h
      exact ih (k + 1) (processFile env existing f st).1 h

/-! ## Cleanup-phase lemmas -/

lemma cleanupLoop_docsNamed (env : SyncEnv) (p : JSStr) :
    ∀ (ds remote : List RemoteDoc) (deleted : Nat) (ops : List StoreOp),
      (∀ d ∈ remote, d.file_name = p → ∀ d0 ∈ ds, ¬(d.uuid = d0.uuid)) →
      docsNamed (cleanupLoop env ds remote deleted ops).1 p = docsNamed remote p := by
  intro ds
  induction ds with
  | nil =>
    intro remote deleted ops _
    rfl
  | cons d0 ds ih =>
    intro remote deleted ops h
    cases hdt : env.deleteThrows d0.uuid with
    | true =>
      simp only [cleanupLoop, hdt, if_true]
      exact ih remote deleted _
        (fun d hd hp d1 h1 => h d hd hp d1 (List.mem_cons_of_mem d0 h1))
    | false =>
      simp only [cleanupLoop, hdt, Bool.false_eq_true, if_false]
      rw [ih _ _ _ (fun d hd hp d1 h1 =>
        h d (List.mem_filter.mp hd).1 hp d1 (List.mem_cons_of_mem d0 h1))]
      rw [docsNamed_filter_comm]
      refine List.filter_eq_self.mpr ?_
      intro y hy
      have hne := h y (mem_of_mem_docsNamed remote p y hy)
        (name_of_mem_docsNamed remote p y hy) d0 (List.mem_cons_self d0 ds)
      simp [hne]

lemma cleanupLoop_mem (env : SyncEnv) :
    ∀ (ds remote : List RemoteDoc) (deleted : Nat) (ops : List StoreOp) (d : RemoteDoc),
      d ∈ (cleanupLoop env ds remote deleted ops).1 →
      d ∈ remote ∧
        ∀ d0 ∈ ds, env.deleteThrows d0.uuid = false → ¬(d.uuid = d0.uuid) := by
  intro ds
  induction ds with
  | nil =>
    intro remote deleted ops d hd
    exact ⟨hd, by intro d0 h0; cases h0⟩
  | cons d0 ds ih =>
    intro remote deleted ops d hd
    cases hdt : env.deleteThrows d0.uuid with
    | true =>
      simp only [cleanupLoop, hdt, if_true] at hd
      obtain ⟨h1, h2⟩ := ih remote deleted _ d hd
      refine ⟨h1, ?_⟩
      intro d1 hd1 hdf
      rcases List.mem_cons.mp hd1 with rfl | hd1'
      · rw [hdt] at hdf
        exact absurd hdf (by simp)
      · exact h2 d1 hd1' hdf
    | false =>
      simp only [cleanupLoop, hdt, Bool.false_eq_true, if_false] at hd
      obtain ⟨h1, h2⟩ := ih _ _ _ d hd
      have h1' := List.mem_filter.mp h1
      refine ⟨h1'.1, ?_⟩
      intro d1 hd1 hdf
      rcases List.mem_cons.mp hd1 with rfl | hd1'
      · intro he
        have := h1'.2
        rw [he] at this
        simp at this
      · exact h2 d1 hd1' hdf

/-! ## Pass-level lemmas -/

lemma success_branch_facts (env : SyncEnv) (cleanup : Bool) (excluded : JSStr → Bool)
    (maxFileSize : Nat) (candidates : List RawFile) (remote0 : List RemoteDoc)
    (hsucc : (syncFilesM env cleanup excluded maxFileSize candidates remote0).result.success
      = true) :
    env.ensureThrows = false ∧
    (prepareFiles excluded maxFileSize candidates).isEmpty = false ∧
    env.listThrows = false := by
  cases henv : env.ensureThrows with
  | true =>
    simp only [syncFilesM, henv, if_true] at hsucc
    simp at hsucc
  | false =>
    cases hemp : (prepareFiles excluded maxFileSize candidates).isEmpty with
    | true =>
      simp only [syncFilesM, henv, hemp, Bool.false_eq_true, if_false, if_true] at hsucc
    | false =>
      cases hlist : env.listThrows with
      | true =>
        simp only [syncFilesM, henv, hemp, hlist, Bool.false_eq_true, if_false,
          if_true] at hsucc
      | false => exact ⟨rfl, rfl, rfl⟩

lemma pass_success_docsNamed (env : SyncEnv) (cleanup : Bool) (excluded : JSStr → Bool)
    (maxFileSize : Nat) (candidates : List RawFile) (remote0 : List RemoteDoc)
    (hpaths : ((prepareFiles excluded maxFileSize candidates).map (fun g => g.path)).Nodup)
    (hnames : (remote0.map (fun d => d.file_name)).Nodup)
    (huuids : (remote0.map (fun d => d.uuid)).Nodup)
    (hnc : env.cancelFrom = none)
    (hsucc : (syncFilesM env cleanup excluded maxFileSize candidates remote0).result.success
      = true) :
    ∀ f ∈ prepareFiles excluded maxFileSize candidates,
      ∃ d, docsNamed
          (syncFilesM env cleanup excluded maxFileSize candidates remote0).finalRemote
          f.path = [d] ∧
        computeSHA256Hash d.content = computeSHA256Hash f.content := by
  obtain ⟨henv, hne, hlist⟩ :=
    success_branch_facts env cleanup excluded maxFileSize candidates remote0 hsucc
  have hexlt : ∀ d ∈ remote0, d.uuid < maxUuid remote0 + 1 :=
    fun d hd => uuid_lt_fresh remote0 d hd
  cases hexit : (passLoop env excluded maxFileSize candidates remote0).2 with
  | thrown =>
    exfalso
    rw [syncFilesM_thrown_eq env cleanup excluded maxFileSize candidates remote0
      henv hne hlist hexit] at hsucc
    simp at hsucc
  | cancelled =>
    exfalso
    rw [passLoop] at hexit
    exact syncLoop_no_cancel env remote0 hnc _ 0 _ hexit
  | completed =>
    have hinv0 : LoopInv remote0 (maxUuid remote0 + 1) []
        (prepareFiles excluded maxFileSize candidates)
        ⟨remote0, maxUuid remote0 + 1, 0, 0, [.listOp]⟩ := by
      refine ⟨huuids, hexlt, le_refl _, ?_, ?_, ?_⟩
      · exact fun d hd => Or.inl hd
      · exact fun f _ => rfl
      · intro f hf
        cases hf
    have hexit' : (syncLoop env remote0 (prepareFiles excluded maxFileSize candidates) 0
        ⟨remote0, maxUuid remote0 + 1, 0, 0, [.listOp]⟩).2 = .completed := by
      rw [passLoop] at hexit
      exact hexit
    have hloopinv := syncLoop_inv env remote0 (maxUuid remote0 + 1) hnames huuids hexlt
      (prepareFiles excluded maxFileSize candidates) [] 0
      ⟨remote0, maxUuid remote0 + 1, 0, 0, [.listOp]⟩ (by simpa using hpaths)
      hinv0 hexit'
    obtain ⟨hN', hB', hnu', hO', hR', hD'⟩ := hloopinv
    intro f hf
    obtain ⟨d, hdn, hdh⟩ := hD' f (by simpa using hf)
    refine ⟨d, ?_, hdh⟩
    rw [syncFilesM_completed_eq env cleanup excluded maxFileSize candidates remote0
      henv hne hlist hexit]
    by_cases hcl : (cleanup && !env.cancelled
        (prepareFiles excluded maxFileSize candidates).length) = true
    · rw [if_pos hcl]
      show docsNamed (passCleanup env excluded maxFileSize candidates remote0).1
        f.path = [d]
      rw [passCleanup]
      rw [cleanupLoop_docsNamed env f.path _ _ _ _ ?_]
      · rw [passLoop]
        exact hdn
      · intro dd hdd hp d0 hd0 he
        have hd0r := (List.mem_filter.mp hd0).1
        have hd0c := (List.mem_filter.mp hd0).2
        have hd0nlp : d0.file_name ∉
            (prepareFiles excluded maxFileSize candidates).map (fun g => g.path) := by
          intro hmem
          have hcont : ((prepareFiles excluded maxFileSize candidates).map
              (fun g => g.path)).contains d0.file_name = true :=
            List.elem_iff.mpr hmem
          rw [hcont] at hd0c
          simp at hd0c
        rw [passLoop] at hdd
        rcases hO' dd hdd with hr | ⟨hge, _⟩
        · have hdd0 : dd = d0 := List.inj_on_of_nodup_map huuids hr hd0r he
          rw [hdd0] at hp
          exact hd0nlp (hp ▸ List.mem_map_of_mem (fun g => g.path) hf)
        · have := hexlt d0 hd0r
          omega
    · rw [if_neg hcl]
      show docsNamed (passLoop env excluded maxFileSize candidates remote0).1.remote
        f.path = [d]
      rw [passLoop]
      exact hdn

lemma mem_prepareFiles (excluded : JSStr → Bool) (maxFileSize : Nat) :
    ∀ (candidates : List RawFile) (c : RawFile), c ∈ candidates →
      excluded c.path = false → c.bytes.length ≤ maxFileSize →
      isBinaryContent c.bytes = false →
      (⟨c.path, decodeUtf8 c.bytes⟩ : FileContent) ∈
        prepareFiles excluded maxFileSize candidates := by
  intro candidates
  induction candidates with
  | nil => intro c hc; cases hc
  | cons x xs ih =>
    intro c hc hex hsz hbin
    rcases List.mem_cons.mp hc with rfl | hmem
    · rw [prepareFiles, if_neg (by rw [hex]; exact Bool.false_ne_true),
        if_neg (Nat.not_lt.mpr hsz), if_neg (by rw [hbin]; exact Bool.false_ne_true)]
      exact List.mem_cons_self _ _
    · have hrec := ih c hmem hex hsz hbin
      rw [prepareFiles]
      by_cases h1 : excluded x.path = true
      · rw [if_pos h1]
        exact hrec
      · rw [if_neg h1]
        by_cases h2 : x.bytes.length > maxFileSize
        · rw [if_pos h2]
          exact hrec
        · rw [if_neg h2]
          by_cases h3 : isBinaryContent x.bytes = true
          · rw [if_pos h3]
            exact hrec
          · rw [if_neg h3]
            exact List.mem_cons_of_mem _ hrec

/-! ## C1 — round-trip invariant of a successful, uncancelled pass -/

/-- C1: after a pass that reports success and is never cancelled, every candidate
file that is not excluded, within the size limit (and not classified binary, in
which case the pass itself adds it to the exclusions) has exactly one remote
document whose `file_name` equals its relative path and whose content fingerprint
equals the local content fingerprint.  The remote listing is assumed
name-unique and uuid-unique, and the eligible paths distinct — the data-model
identity invariants of the spec. -/
theorem roundTrip_uniqueMatchingDoc (env : SyncEnv) (cleanup : Bool)
    (excluded : JSStr → Bool) (maxFileSize : Nat)
    (candidates : List RawFile) (remote0 : List RemoteDoc)
    (hpaths : ((prepareFiles excluded maxFileSize candidates).map (fun g => g.path)).Nodup)
    (hnames : (remote0.map (fun d => d.file_name)).Nodup)
    (huuids : (remote0.map (fun d => d.uuid)).Nodup)
    (hnc : env.cancelFrom = none)
    (hsucc : (syncFilesM env cleanup excluded maxFileSize candidates remote0).result.success
      = true)
    (c : RawFile) (hc : c ∈ candidates)
    (hex : excluded c.path = false)
    (hsize : c.bytes.length ≤ maxFileSize)
    (hbin : isBinaryContent c.bytes = false) :
    ((syncFilesM env cleanup excluded maxFileSize candidates remote0).finalRemote.filter
      (fun d => d.file_name == c.path &&
        (computeSHA256Hash d.content == computeSHA256Hash (decodeUtf8 c.bytes)))).length
      = 1 := by
  have hf : (⟨c.path, decodeUtf8 c.bytes⟩ : FileContent) ∈
      prepareFiles excluded maxFileSize candidates :=
    mem_prepareFiles excluded maxFileSize candidates c hc hex hsize hbin
  obtain ⟨d, hdn, hdh⟩ := pass_success_docsNamed env cleanup excluded maxFileSize
    candidates remote0 hpaths hnames huuids hnc hsucc ⟨c.path, decodeUtf8 c.bytes⟩ hf
  have hcomm : (syncFilesM env cleanup excluded maxFileSize candidates
        remote0).finalRemote.filter
      (fun d => d.file_name == c.path &&
        (computeSHA256Hash d.content == computeSHA256Hash (decodeUtf8 c.bytes))) =
      (docsNamed (syncFilesM env cleanup excluded maxFileSize candidates
        remote0).finalRemote c.path).filter
        (fun d => computeSHA256Hash d.content ==
          computeSHA256Hash (decodeUtf8 c.bytes)) := by
    rw [docsNamed, List.filter_filter]
    exact List.filter_congr (fun a _ => Bool.and_comm _ _)
  rw [hcomm, hdn]
  have : (computeSHA256Hash d.content ==
      computeSHA256Hash (decodeUtf8 c.bytes)) = true := beq_iff_eq.mpr hdh
  simp [this]

/-- C1 witness: a one-file pass creating a fresh remote document. -/
theorem roundTrip_uniqueMatchingDoc_witness :
    (((prepareFiles (fun _ => false) 100 [⟨js "a", [104]⟩]).map (fun g => g.path)).Nodup ∧
      (([] : List RemoteDoc).map (fun d => d.file_name)).Nodup ∧
      (([] : List RemoteDoc).map (fun d => d.uuid)).Nodup ∧
      noFailEnv.cancelFrom = none ∧
      (syncFilesM noFailEnv false (fun _ => false) 100 [⟨js "a", [104]⟩]
        []).result.success = true ∧
      (⟨js "a", [104]⟩ : RawFile) ∈ [(⟨js "a", [104]⟩ : RawFile)] ∧
      (fun _ => false : JSStr → Bool) (js "a") = false ∧
      ([104] : List Nat).length ≤ 100 ∧
      isBinaryContent [104] = false) ∧
    ((syncFilesM noFailEnv false (fun _ => false) 100 [⟨js "a", [104]⟩]
        []).finalRemote.filter
      (fun d => d.file_name == js "a" &&
        (computeSHA256Hash d.content == computeSHA256Hash (decodeUtf8 [104])))).length
      = 1 :=
  ⟨⟨by decide, by decide, by decide, rfl, by decide, by decide, rfl, by decide, by decide⟩,
   roundTrip_uniqueMatchingDoc noFailEnv false (fun _ => false) 100
     [⟨js "a", [104]⟩] [] (by decide) (by decide) (by decide) rfl (by decide)
     ⟨js "a", [104]⟩ (by decide) rfl (by decide) (by decide)⟩

lemma pass_cleanup_names (env : SyncEnv) (excluded : JSStr → Bool)
    (maxFileSize : Nat) (candidates : List RawFile) (remote0 : List RemoteDoc)
    (hpaths : ((prepareFiles excluded maxFileSize candidates).map (fun g => g.path)).Nodup)
    (hnames : (remote0.map (fun d => d.file_name)).Nodup)
    (huuids : (remote0.map (fun d => d.uuid)).Nodup)
    (hnc : env.cancelFrom = none)
    (hsucc : (syncFilesM env true excluded maxFileSize candidates remote0).result.success
      = true)
    (hdelfree : ∀ u, env.deleteThrows u = false) :
    ∀ d ∈ (syncFilesM env true excluded maxFileSize candidates remote0).finalRemote,
      d.file_name ∈ (prepareFiles excluded maxFileSize candidates).map (fun g => g.path) := by
  obtain ⟨henv, hne, hlist⟩ :=
    success_branch_facts env true excluded maxFileSize candidates remote0 hsucc
  have hexlt : ∀ d ∈ remote0, d.uuid < maxUuid remote0 + 1 :=
    fun d hd => uuid_lt_fresh remote0 d hd
  cases hexit : (passLoop env excluded maxFileSize candidates remote0).2 with
  | thrown =>
    exfalso
    rw [syncFilesM_thrown_eq env true excluded maxFileSize candidates remote0
      henv hne hlist hexit] at hsucc
    simp at hsucc
  | cancelled =>
    exfalso
    rw [passLoop] at hexit
    exact syncLoop_no_cancel env remote0 hnc _ 0 _ hexit
  | completed =>
    have hinv0 : LoopInv remote0 (maxUuid remote0 + 1) []
        (prepareFiles excluded maxFileSize candidates)
        ⟨remote0, maxUuid remote0 + 1, 0, 0, [.listOp]⟩ := by
      refine ⟨huuids, hexlt, le_refl _, ?_, ?_, ?_⟩
      · exact fun d hd => Or.inl hd
      · exact fun f _ => rfl
      · intro f hf
        cases hf
    have hexit' : (syncLoop env remote0 (prepareFiles excluded maxFileSize candidates) 0
        ⟨remote0, maxUuid remote0 + 1, 0, 0, [.listOp]⟩).2 = .completed := by
      rw [passLoop] at hexit
      exact hexit
    have hloopinv := syncLoop_inv env remote0 (maxUuid remote0 + 1) hnames huuids hexlt
      (prepareFiles excluded maxFileSize candidates) [] 0
      ⟨remote0, maxUuid remote0 + 1, 0, 0, [.listOp]⟩ (by simpa using hpaths)
      hinv0 hexit'
    obtain ⟨hN', hB', hnu', hO', hR', hD'⟩ := hloopinv
    have hcanlen : env.cancelled
        (prepareFiles excluded maxFileSize candidates).length = false := by
      rw [SyncEnv.cancelled, hnc]
    have hcl : (true && !env.cancelled
        (prepareFiles excluded maxFileSize candidates).length) = true := by
      rw [hcanlen]
      rfl
    rw [syncFilesM_completed_eq env true excluded maxFileSize candidates remote0
      henv hne hlist hexit, if_pos hcl]
    intro d hd
    have hd' : d ∈ (passCleanup env excluded maxFileSize candidates remote0).1 := hd
    rw [passCleanup] at hd'
    obtain ⟨hdr, hprop⟩ := cleanupLoop_mem env _ _ _ _ d hd'
    by_contra hnot
    have hdrem0 : d ∈ remote0 := by
      rw [passLoop] at hdr
      rcases hO' d hdr with h1 | ⟨_, h3⟩
      · exact h1
      · exact absurd (by simpa using h3) hnot
    have hdtd : d ∈ remote0.filter (fun x =>
        !(((prepareFiles excluded maxFileSize candidates).map (fun g => g.path)).contains
          x.file_name)) := by
      rw [List.mem_filter]
      refine ⟨hdrem0, ?_⟩
      cases hcont : ((prepareFiles excluded maxFileSize candidates).map
          (fun g => g.path)).contains d.file_name with
      | false => rfl
      | true => exact absurd (List.elem_iff.mp hcont) hnot
    exact hprop d hdtd (hdelfree d.uuid) rfl

lemma syncLoop_all_skip (env : SyncEnv) (existing : List RemoteDoc)
    (hnc : env.cancelFrom = none) :
    ∀ (fs : List FileContent) (k : Nat) (st : LoopState),
      (∀ f ∈ fs, ∃ d, existing.find? (fun x => x.file_name == f.path) = some d ∧
        computeSHA256Hash d.content = computeSHA256Hash f.content) →
      syncLoop env existing fs k st =
        ({ st with skipped := st.skipped + fs.length }, .completed) := by
  intro fs
  induction fs with
  | nil =>
    intro k st _
    rfl
  | cons f fs ih =>
    intro k st h
    obtain ⟨d, hfind, hhash⟩ := h f (List.mem_cons_self f fs)
    have hcan : env.cancelled k = false := by rw [SyncEnv.cancelled, hnc]
    simp only [syncLoop, hcan, Bool.false_eq_true, if_false, processFile, hfind]
    rw [if_pos (beq_iff_eq.mpr hhash)]
    simp only [Bool.false_eq_true, if_false]
    rw [ih (k + 1) _ (fun g hg => h g (List.mem_cons_of_mem f hg))]
    have harith : st.skipped + 1 + fs.length = st.skipped + (f :: fs).length := by
      rw [List.length_cons]
      omega
    rw [harith]

/-! ## C5 — a second pass over unchanged state is all-skip -/

/-- C5: if a pass over the candidate set succeeds (fault-free and uncancelled) and a
second pass runs over the same candidates, configuration, and the remote state the
first pass left, then the second pass issues no creations and no deletions — its
operation trace is just the listing — and reports every eligible file as
skipped-unchanged (skipped count equals the total count). -/
theorem secondPass_idempotent (cleanup : Bool) (excluded : JSStr → Bool)
    (maxFileSize : Nat) (candidates : List RawFile) (remote0 : List RemoteDoc)
    (hpaths : ((prepareFiles excluded maxFileSize candidates).map (fun g => g.path)).Nodup)
    (hnames : (remote0.map (fun d => d.file_name)).Nodup)
    (huuids : (remote0.map (fun d => d.uuid)).Nodup)
    (hsucc1 : (syncFilesM noFailEnv cleanup excluded maxFileSize candidates
      remote0).result.success = true) :
    (syncFilesM noFailEnv cleanup excluded maxFileSize candidates
        (syncFilesM noFailEnv cleanup excluded maxFileSize candidates
          remote0).finalRemote).result.syncedFiles = 0 ∧
    (syncFilesM noFailEnv cleanup excluded maxFileSize candidates
        (syncFilesM noFailEnv cleanup excluded maxFileSize candidates
          remote0).finalRemote).result.deletedFiles = 0 ∧
    (syncFilesM noFailEnv cleanup excluded maxFileSize candidates
        (syncFilesM noFailEnv cleanup excluded maxFileSize candidates
          remote0).finalRemote).result.skippedFiles =
      (syncFilesM noFailEnv cleanup excluded maxFileSize candidates
        (syncFilesM noFailEnv cleanup excluded maxFileSize candidates
          remote0).finalRemote).result.totalFiles ∧
    (syncFilesM noFailEnv cleanup excluded maxFileSize candidates
        (syncFilesM noFailEnv cleanup excluded maxFileSize candidates
          remote0).finalRemote).ops = [.listOp] := by
  obtain ⟨henv, hne, hlist⟩ :=
    success_branch_facts noFailEnv cleanup excluded maxFileSize candidates remote0 hsucc1
  have hprop := pass_success_docsNamed noFailEnv cleanup excluded maxFileSize candidates
    remote0 hpaths hnames huuids rfl hsucc1
  have hfind2 : ∀ f ∈ prepareFiles excluded maxFileSize candidates,
      ∃ d, (syncFilesM noFailEnv cleanup excluded maxFileSize candidates
          remote0).finalRemote.find? (fun x => x.file_name == f.path) = some d ∧
        computeSHA256Hash d.content = computeSHA256Hash f.content := by
    intro f hf
    obtain ⟨d, h1, h2⟩ := hprop f hf
    exact ⟨d, find?_of_docsNamed_singleton _ _ _ h1, h2⟩
  have hloop2 := syncLoop_all_skip noFailEnv
    (syncFilesM noFailEnv cleanup excluded maxFileSize candidates remote0).finalRemote rfl
    (prepareFiles excluded maxFileSize candidates) 0
    ⟨(syncFilesM noFailEnv cleanup excluded maxFileSize candidates remote0).finalRemote,
      maxUuid (syncFilesM noFailEnv cleanup excluded maxFileSize candidates
        remote0).finalRemote + 1, 0, 0, [.listOp]⟩ hfind2
  have hL1 : passLoop noFailEnv excluded maxFileSize candidates
      (syncFilesM noFailEnv cleanup excluded maxFileSize candidates remote0).finalRemote =
      (⟨(syncFilesM noFailEnv cleanup excluded maxFileSize candidates remote0).finalRemote,
        maxUuid (syncFilesM noFailEnv cleanup excluded maxFileSize candidates
          remote0).finalRemote + 1,
        0 + (prepareFiles excluded maxFileSize candidates).length, 0, [.listOp]⟩,
       .completed) := by
    rw [passLoop, hloop2]
  have hexit2 : (passLoop noFailEnv excluded maxFileSize candidates
      (syncFilesM noFailEnv cleanup excluded maxFileSize candidates
        remote0).finalRemote).2 = .completed := by
    rw [hL1]
  rw [syncFilesM_completed_eq noFailEnv cleanup excluded maxFileSize candidates
    (syncFilesM noFailEnv cleanup excluded maxFileSize candidates remote0).finalRemote
    rfl hne rfl hexit2]
  cases cleanup with
  | false =>
    rw [if_neg (by simp)]
    simp only [hL1]
    exact ⟨trivial, trivial, by simp, trivial⟩
  | true =>
    rw [if_pos (show (true && !noFailEnv.cancelled
      (prepareFiles excluded maxFileSize candidates).length) = true from rfl)]
    have hnames2 := pass_cleanup_names noFailEnv excluded maxFileSize candidates remote0
      hpaths hnames huuids rfl hsucc1 (fun _ => rfl)
    have htd : (syncFilesM noFailEnv true excluded maxFileSize candidates
        remote0).finalRemote.filter (fun d =>
        !(((prepareFiles excluded maxFileSize candidates).map (fun g => g.path)).contains
          d.file_name)) = [] := by
      rw [List.filter_eq_nil_iff]
      intro d hd
      have hcont : ((prepareFiles excluded maxFileSize candidates).map
          (fun g => g.path)).contains d.file_name = true :=
        List.elem_iff.mpr (hnames2 d hd)
      rw [hcont]
      simp
    have hclean : passCleanup noFailEnv excluded maxFileSize candidates
        (syncFilesM noFailEnv true excluded maxFileSize candidates remote0).finalRemote =
        ((passLoop noFailEnv excluded maxFileSize candidates
           (syncFilesM noFailEnv true excluded maxFileSize candidates
             remote0).finalRemote).1.remote, 0,
         (passLoop noFailEnv excluded maxFileSize candidates
           (syncFilesM noFailEnv true excluded maxFileSize candidates
             remote0).finalRemote).1.ops) := by
      rw [passCleanup, htd]
      rfl
    simp only [hclean, hL1]
    exact ⟨trivial, trivial, by simp, trivial⟩

/-- C5 witness: a one-file pass (with remote cleanup enabled) succeeds, and the
second pass applied by the theorem reports all-skip with no creations or deletions. -/
theorem secondPass_idempotent_witness :
    ((((prepareFiles (fun _ => false) 100 [⟨js "a", [104]⟩]).map
        (fun g => g.path)).Nodup) ∧
      ((([] : List RemoteDoc).map (fun d => d.file_name)).Nodup) ∧
      ((([] : List RemoteDoc).map (fun d => d.uuid)).Nodup) ∧
      (syncFilesM noFailEnv true (fun _ => false) 100 [⟨js "a", [104]⟩]
        []).result.success = true) ∧
    (syncFilesM noFailEnv true (fun _ => false) 100 [⟨js "a", [104]⟩]
      (syncFilesM noFailEnv true (fun _ => false) 100 [⟨js "a", [104]⟩]
        []).finalRemote).result.syncedFiles = 0 ∧
    (syncFilesM noFailEnv true (fun _ => false) 100 [⟨js "a", [104]⟩]
      (syncFilesM noFailEnv true (fun _ => false) 100 [⟨js "a", [104]⟩]
        []).finalRemote).ops = [.listOp] :=
  ⟨⟨by decide, by decide, by decide, by decide⟩,
   (secondPass_idempotent true (fun _ => false) 100 [⟨js "a", [104]⟩] []
     (by decide) (by decide) (by decide) (by decide)).1,
   (secondPass_idempotent true (fun _ => false) 100 [⟨js "a", [104]⟩] []
     (by decide) (by decide) (by decide) (by decide)).2.2.2⟩
